import Mathlib

/-!
Verification of the hedera-sdk-go fork's transaction / key / checksum layer.

The Go source is shallowly embedded: pure functions become Lean functions,
stateful methods on `*TransferTransaction` become functions
`TransferTransaction → ...` returning the updated record, Go `(value, error)`
returns become `Except`/`Option`-shaped results, and machine integers become
`Nat`/`Int` (no overflow is relevant to these operations).  Definitions carry
the names of the Go functions they embed.  Parts of the repository that the
sources do not include (the embedded `Transaction` base type's helpers and the
checksum validator) are modelled from the specification; each such definition
says so in its doc comment.
-/

set_option maxRecDepth 10000

/-- Decidable equality for `Except`, used to evaluate fallible operations at
concrete inputs. -/
instance exceptDecEq {ε α : Type} [DecidableEq ε] [DecidableEq α] : DecidableEq (Except ε α) :=
  fun a b =>
    match a, b with
    | .ok x, .ok y =>
      if h : x = y then isTrue (congrArg Except.ok h)
      else isFalse (fun hc => h (Except.ok.inj hc))
    | .error x, .error y =>
      if h : x = y then isTrue (congrArg Except.error h)
      else isFalse (fun hc => h (Except.error.inj hc))
    | .ok _, .error _ => isFalse (fun hc => Except.noConfusion hc)
    | .error _, .ok _ => isFalse (fun hc => Except.noConfusion hc)

/-- A byte, as used for serialized bodies, keys and signatures. -/
abbrev Byte := Fin 256

/-- Embeds Go `AccountID` `{Shard, Realm, Account uint64; checksum *string}`. -/
structure AccountID where
  shard : Nat
  realm : Nat
  account : Nat
  checksum : Option String
deriving DecidableEq

/-- Embeds the SDK's zero test on an `AccountID` (all numeric parts zero). -/
def AccountID.isZero (a : AccountID) : Bool :=
  decide (a.shard = 0) && decide (a.realm = 0) && decide (a.account = 0)

/-- Embeds the SDK's `AccountID.equals`, comparing the numeric parts. -/
def AccountID.equals (a b : AccountID) : Bool :=
  decide (a.shard = b.shard) && decide (a.realm = b.realm) && decide (a.account = b.account)

/-- Embeds Go `TokenID` `{Shard, Realm, Token uint64}`. -/
structure TokenID where
  shard : Nat
  realm : Nat
  token : Nat
deriving DecidableEq

/-- Embeds Go `TransactionID` `{AccountID, ValidStart}`; the timestamp is a `Nat`. -/
structure TransactionID where
  accountID : AccountID
  validStart : Nat
deriving DecidableEq

/-- Embeds `type NetworkName string` (network_name.go): an open string type. -/
abbrev NetworkName := String

/-- Embeds `NetworkName.Network()` (network_name.go).  The Go function returns
"0"/"1"/"2" for the three named networks and panics on any other value; the
panic is modelled as `none`. -/
def NetworkName.Network (networkName : NetworkName) : Option String :=
  if networkName = "mainnet" then some "0"
  else if networkName = "testnet" then some "1"
  else if networkName = "previewnet" then some "2"
  else none

/-- Value of a hexadecimal digit character (0 for non-hex input, mirroring the
lenient parse used on ledger-id strings, which are always decimal digits). -/
def hexDigitVal (c : Char) : Nat :=
  if '0' ≤ c ∧ c ≤ '9' then c.toNat - 48
  else if 'a' ≤ c ∧ c ≤ 'f' then c.toNat - 87
  else 0

/-- Modelled from the spec: the checksum's "network-specific salt (derived from
the configured NetworkName)".  The ledger-id string (the `Network()` digit plus
twelve `'0'` characters) is consumed two hexadecimal characters at a time, a
trailing lone character standing alone, exactly as the SDK's checksum code
(absent from src/) scans it. -/
def ledgerIdBytes : List Char → List Nat
  | [] => []
  | [c] => [hexDigitVal c]
  | c1 :: c2 :: rest => (hexDigitVal c1 * 16 + hexDigitVal c2) :: ledgerIdBytes rest

/-- Modelled from the spec: the Checksum Validator's "5-character lowercase
base-32 checksum over an EntityID's shard/realm/num digit string combined with
a network-specific salt", "a weighted polynomial checksum (mod-34 class) over
the digit sequence".  The concrete parameters reproduce the spec's concrete
scenario (account 0.0.123 on testnet has checksum rmkyk); the checksum
function itself is not in src/. -/
def entityChecksum (ledgerID : List Char) (addr : List Char) : List Char :=
  let p3 : Nat := 26 * 26 * 26
  let p5 : Nat := 26 * 26 * 26 * 26 * 26
  let m : Nat := 1000003
  let d : List Nat := addr.map (fun ch => if ch = '.' then 10 else ch.toNat - 48)
  let h : List Nat := ledgerIdBytes (ledgerID ++ "000000000000".toList)
  let acc := d.foldl
    (fun (acc : Nat × Nat × Nat × Nat) (x : Nat) =>
      let i := acc.1
      let s0 := acc.2.1
      let s1 := acc.2.2.1
      let s := acc.2.2.2
      (i + 1,
       if i % 2 = 0 then (s0 + x) % 11 else s0,
       if i % 2 = 1 then (s1 + x) % 11 else s1,
       (31 * s + x) % p3))
    (0, 0, 0, 0)
  let s0 := acc.2.1
  let s1 := acc.2.2.1
  let s := acc.2.2.2
  let sh := h.foldl (fun sh x => (31 * sh + x) % p5) 0
  let c0 := ((((d.length % 5) * 11 + s0) * 11 + s1) * p3 + s + sh) % p5
  let c1 := (c0 * m) % p5
  [Char.ofNat (97 + c1 / (26 * 26 * 26 * 26) % 26),
   Char.ofNat (97 + c1 / (26 * 26 * 26) % 26),
   Char.ofNat (97 + c1 / (26 * 26) % 26),
   Char.ofNat (97 + c1 / 26 % 26),
   Char.ofNat (97 + c1 % 26)]

/-- Decimal digit test on a character. -/
def isDigitChar (c : Char) : Bool := decide ('0' ≤ c) && decide (c ≤ '9')

/-- Lowercase-letter test on a character (checksum suffix alphabet). -/
def isLowerChar (c : Char) : Bool := decide ('a' ≤ c) && decide (c ≤ 'z')

/-- Parse a non-empty all-digit character list as a `Nat`. -/
def parseNatChars (s : List Char) : Option Nat :=
  if s.isEmpty then none
  else if s.all isDigitChar then some (s.foldl (fun n c => n * 10 + (c.toNat - 48)) 0)
  else none

/-- Split a character list at every occurrence of the separator. -/
def splitOnCharAux (sep : Char) : List Char → List Char → List (List Char)
  | [], acc => [acc.reverse]
  | c :: cs, acc =>
    if c = sep then acc.reverse :: splitOnCharAux sep cs []
    else splitOnCharAux sep cs (c :: acc)

/-- Split a character list on a separator character. -/
def splitOnChar (sep : Char) (s : List Char) : List (List Char) :=
  splitOnCharAux sep s []

/-- Modelled from the spec: the entity-ID string form
`shard.realm.num[-checksum]` (spec section 6); `AccountIDFromString` itself is
not in src/.  The optional suffix after `-` must be lowercase letters; the
repository's unit test shows a six-letter suffix is accepted at parse time and
only rejected by validation. -/
def AccountIDFromString (s : String) : Option AccountID :=
  let parts := splitOnChar '-' s.toList
  let parseEntity : List Char → Option String → Option AccountID := fun idPart cs =>
    match splitOnChar '.' idPart with
    | [a, b, c] =>
      match parseNatChars a, parseNatChars b, parseNatChars c with
      | some sh, some re, some ac => some { shard := sh, realm := re, account := ac, checksum := cs }
      | _, _, _ => none
    | _ => none
  match parts with
  | [idPart] => parseEntity idPart none
  | [idPart, cs] =>
    if cs.isEmpty then none
    else if cs.all isLowerChar then parseEntity idPart (some (String.mk cs))
    else none
  | _ => none

/-- Fuelled digit rendering of a natural number (most significant first). -/
def natToCharsAux : Nat → Nat → List Char → List Char
  | 0, _, acc => acc
  | fuel + 1, n, acc =>
    if n < 10 then Char.ofNat (48 + n) :: acc
    else natToCharsAux fuel (n / 10) (Char.ofNat (48 + n % 10) :: acc)

/-- Decimal digit characters of a natural number. -/
def natToChars (n : Nat) : List Char := natToCharsAux (n + 1) n []

/-- The `shard.realm.num` digit string of an `AccountID`, as the SDK formats it
for checksum computation. -/
def AccountID.addrChars (a : AccountID) : List Char :=
  natToChars a.shard ++ '.' :: natToChars a.realm ++ '.' :: natToChars a.account

/-- The structured content of the SDK's checksum-mismatch error. -/
structure ChecksumError where
  given : String
  correct : String
  network : String
deriving DecidableEq

/-- The error text produced on a checksum mismatch, as asserted by
`TestUnitTransactionReceiptQueryValidateWrong`. -/
def ChecksumError.message (e : ChecksumError) : String :=
  "network mismatch or wrong checksum given, given checksum: " ++ e.given ++
    ", correct checksum " ++ e.correct ++ ", network: " ++ e.network

/-- Modelled from the spec: `_ValidateNetworkOnIDs` / checksum validation
(spec section 4.5), absent from src/.  "validation recomputes the expected
checksum for the currently configured network and fails with a descriptive
ChecksumMismatch (stating given checksum, expected checksum, network name)
before any node call is issued".  The function is pure: no node interaction is
modelled because none occurs. -/
def validateChecksum (networkName : NetworkName) (a : AccountID) : Except ChecksumError Unit :=
  match a.checksum with
  | none => .ok ()
  | some given =>
    let expected := String.mk
      (entityChecksum ((NetworkName.Network networkName).getD "").toList a.addrChars)
    if given = expected then .ok ()
    else .error { given := given, correct := expected, network := networkName }

/-- Embeds `proto.AccountAmount` `{AccountID, Amount int64}`; this is also the
content of one `TokenTransfer`. -/
structure AccountAmount where
  accountID : AccountID
  amount : Int
deriving DecidableEq

/-- Embeds `proto.TokenTransferList` `{Token, Transfers}`. -/
structure TokenTransferList where
  token : TokenID
  transfers : List AccountAmount
deriving DecidableEq

/-- Embeds `proto.CryptoTransferTransactionBody`: an hbar transfer list plus
per-token transfer lists. -/
structure CryptoTransferBody where
  transfers : List AccountAmount
  tokenTransfers : List TokenTransferList
deriving DecidableEq

/-- A public key as the transaction layer sees it: the raw bytes used as the
key of a signature-pair entry. -/
abbrev PublicKey := List Byte

/-- Embeds `proto.TransactionBody` as marshalled into one per-node
`bodyBytes`.  Protobuf serialization is modelled shallowly: the "bytes" are
the body's fields themselves, which keeps the per-node copies
"differing only in an embedded node-account-ID field" observable. -/
structure TransactionBody where
  transactionFee : Option Nat
  memo : String
  validDuration : Nat
  transactionID : Option TransactionID
  nodeAccountID : AccountID
  data : Option CryptoTransferBody
deriving DecidableEq

/-- Error values surfaced by the transaction layer. -/
inductive HederaError where
  | transactionIsFrozen
  | clientOperatorSigning
  | noClientOrTransactionIDOrNodeId
deriving DecidableEq

/-- Embeds `TransferTransaction` together with the fields of its embedded
`Transaction` base value (flattened here): builder body fields, the candidate
node list, and the per-node serialized bodies (`transactions`) with their
index-aligned signature maps (`signatures`). -/
structure TransferTransaction where
  pb : CryptoTransferBody
  tokenIndexes : List (TokenID × Nat)
  transactionFee : Option Nat
  memo : String
  validDuration : Nat
  id : Option TransactionID
  nodeIDs : List AccountID
  pbBodyData : Option CryptoTransferBody
  transactions : List TransactionBody
  signatures : List (List (PublicKey × List Byte))
deriving DecidableEq

/-- Embeds the operator configuration of a `Client`: account, public key and
signing function. -/
structure Operator where
  accountID : AccountID
  publicKey : PublicKey
  signer : TransactionBody → List Byte

/-- Embeds the `Client` collaborator: optional operator, client-wide default
max fee, healthy-node list and configured network name. -/
structure Client where
  operator : Option Operator
  maxTransactionFee : Nat
  network : List AccountID
  networkName : NetworkName

/-- Embeds `NewTransferTransaction()`: empty transfer lists, empty token index
map, and the fresh `Transaction` base produced by `newTransaction()` (no fee,
no id, no nodes, 120-second valid duration, nothing serialized yet). -/
def NewTransferTransaction : TransferTransaction :=
  { pb := { transfers := [], tokenTransfers := [] }
    tokenIndexes := []
    transactionFee := none
    memo := ""
    validDuration := 120
    id := none
    nodeIDs := []
    pbBodyData := none
    transactions := []
    signatures := [] }

/-- Modelled from the spec: a "Frozen transaction" is one "whose body and node
list are fixed and ready for signing"; the SDK's `isFrozen` helper (absent
from src/) reports whether per-node serialized bodies exist. -/
def TransferTransaction.IsFrozen (t : TransferTransaction) : Bool :=
  !t.transactions.isEmpty

/-- Modelled from the spec: "any setter on a non-mutable transaction fails
with TransactionIsFrozen".  The helper itself is absent from src/; every
setter in src/ calls it before mutating, so a frozen transaction's setters
fail without touching any field. -/
def TransferTransaction.requireNotFrozen (t : TransferTransaction) : Except HederaError Unit :=
  if t.IsFrozen then .error .transactionIsFrozen else .ok ()

/-- Embeds `AddHbarTransfer` (transfer_transaction.go): append one
account/amount pair to the hbar transfer list. -/
def TransferTransaction.AddHbarTransfer (t : TransferTransaction) (accountID : AccountID)
    (amount : Int) : Except HederaError TransferTransaction :=
  match t.requireNotFrozen with
  | .error e => .error e
  | .ok _ =>
    .ok { t with pb :=
      { t.pb with transfers := t.pb.transfers ++ [{ accountID := accountID, amount := amount }] } }

/-- First-match lookup in the `tokenIndexes` association list, embedding the
Go map read `transaction.tokenIndexes[tokenID]` (the map's keys are unique, so
first-match equals map semantics). -/
def lookupIndex (tok : TokenID) : List (TokenID × Nat) → Option Nat
  | [] => none
  | p :: ps => if p.1 = tok then some p.2 else lookupIndex tok ps

/-- In-place update of the element at one index, embedding the Go slice write
`transaction.pb.TokenTransfers[index].Transfers = append(...)`. -/
def modifyIdx : List α → Nat → (α → α) → List α
  | [], _, _ => []
  | x :: xs, 0, f => f x :: xs
  | x :: xs, n + 1, f => x :: modifyIdx xs n f

/-- Embeds `AddTokenTransfer` (transfer_transaction.go): append to the
existing `TokenTransferList` found through `tokenIndexes`, or start a new list
and record its index. -/
def TransferTransaction.AddTokenTransfer (t : TransferTransaction) (tokenID : TokenID)
    (accountID : AccountID) (value : Int) : Except HederaError TransferTransaction :=
  match t.requireNotFrozen with
  | .error e => .error e
  | .ok _ =>
    match lookupIndex tokenID t.tokenIndexes with
    | some index =>
      .ok { t with pb := { t.pb with tokenTransfers := modifyIdx t.pb.tokenTransfers index (fun ttl => { ttl with transfers := ttl.transfers ++ [{ accountID := accountID, amount := value }] }) } }
    | none =>
      .ok { t with
        tokenIndexes := t.tokenIndexes ++ [(tokenID, t.pb.tokenTransfers.length)]
        pb := { t.pb with tokenTransfers := t.pb.tokenTransfers ++ [{ token := tokenID, transfers := [{ accountID := accountID, amount := value }] }] } }

/-- Embeds `GetTokenTransfers` (transfer_transaction.go) observed at one
token: the Go method folds every `TokenTransferList` into a map keyed by
token, appending inner transfers in order, so the entry for `tok` is the
in-order concatenation of the transfers of every list carrying `tok`. -/
def TransferTransaction.GetTokenTransfers (t : TransferTransaction) (tok : TokenID) :
    List AccountAmount :=
  ((t.pb.tokenTransfers.filter (fun g => decide (g.token = tok))).map
    (fun g => g.transfers)).flatten

/-- Embeds `SetMaxTransactionFee` (transfer_transaction.go). -/
def TransferTransaction.SetMaxTransactionFee (t : TransferTransaction) (fee : Nat) :
    Except HederaError TransferTransaction :=
  match t.requireNotFrozen with
  | .error e => .error e
  | .ok _ => .ok { t with transactionFee := some fee }

/-- Embeds `SetTransactionMemo` (transfer_transaction.go). -/
def TransferTransaction.SetTransactionMemo (t : TransferTransaction) (memo : String) :
    Except HederaError TransferTransaction :=
  match t.requireNotFrozen with
  | .error e => .error e
  | .ok _ => .ok { t with memo := memo }

/-- Embeds `SetTransactionValidDuration` (transfer_transaction.go); the
duration is kept in seconds. -/
def TransferTransaction.SetTransactionValidDuration (t : TransferTransaction) (duration : Nat) :
    Except HederaError TransferTransaction :=
  match t.requireNotFrozen with
  | .error e => .error e
  | .ok _ => .ok { t with validDuration := duration }

/-- Embeds `SetTransactionID` (transfer_transaction.go). -/
def TransferTransaction.SetTransactionID (t : TransferTransaction)
    (transactionID : TransactionID) : Except HederaError TransferTransaction :=
  match t.requireNotFrozen with
  | .error e => .error e
  | .ok _ => .ok { t with id := some transactionID }

/-- Embeds `SetNodeAccountIDs` (transfer_transaction.go). -/
def TransferTransaction.SetNodeAccountIDs (t : TransferTransaction) (nodeID : List AccountID) :
    Except HederaError TransferTransaction :=
  match t.requireNotFrozen with
  | .error e => .error e
  | .ok _ => .ok { t with nodeIDs := nodeID }

/-- Modelled from the spec: `initFee` (absent from src/) implements Freeze's
"if unset, computes default max fee (operation-type default or client-wide
override)"; with no client context the fee is left alone. -/
def TransferTransaction.initFee (t : TransferTransaction) (client : Option Client) :
    TransferTransaction :=
  match client with
  | none => t
  | some c =>
    if t.transactionFee = none then { t with transactionFee := some c.maxTransactionFee } else t

/-- Modelled from the spec: `initTransactionID` (absent from src/) implements
Freeze's "a fresh TransactionID from the context's payer account and current
time" when the id is unset; without a client operator to act as payer it
fails, which is the error path `FreezeWith` in src/ propagates.  The clock is
threaded in as `now`. -/
def TransferTransaction.initTransactionID (t : TransferTransaction) (client : Option Client)
    (now : Nat) : Except HederaError TransferTransaction :=
  if t.id.isSome then .ok t
  else
    match client with
    | some c =>
      match c.operator with
      | some op => .ok { t with id := some { accountID := op.accountID, validStart := now } }
      | none => .error .noClientOrTransactionIDOrNodeId
    | none => .error .noClientOrTransactionIDOrNodeId

/-- Embeds `onFreeze` (transfer_transaction.go): stores the transfer body as
the wire body's data field; the Go version always reports `true`. -/
def TransferTransaction.onFreeze (t : TransferTransaction) : TransferTransaction :=
  { t with pbBodyData := some t.pb }

/-- The `proto.TransactionBody` marshalled for one candidate node, embedding
the per-node serialization step of `transaction_freezeWith`. -/
def TransferTransaction.bodyForNode (t : TransferTransaction) (node : AccountID) :
    TransactionBody :=
  { transactionFee := t.transactionFee
    memo := t.memo
    validDuration := t.validDuration
    transactionID := t.id
    nodeAccountID := node
    data := t.pbBodyData }

/-- Serialize one body per candidate node and create the aligned empty
signature maps. -/
def freezeAppend (t : TransferTransaction) : TransferTransaction :=
  { t with
    transactions := t.transactions ++ t.nodeIDs.map t.bodyForNode
    signatures := t.signatures ++ t.nodeIDs.map (fun _ => []) }

/-- Modelled from the spec: `transaction_freezeWith` (absent from src/).  The
freeze "transition is idempotent — a second call is a no-op, not an error";
on a not-yet-frozen transaction it "resolves the candidate node list (explicit
override or a sample of the context's healthy nodes)" — failing when neither
is available — and "serializes one wire body per candidate node". -/
def transaction_freezeWith (client : Option Client) (t : TransferTransaction) :
    TransferTransaction × Option HederaError :=
  if t.IsFrozen then (t, none)
  else if t.nodeIDs.isEmpty then
    match client with
    | none => (t, some .noClientOrTransactionIDOrNodeId)
    | some c => (freezeAppend { t with nodeIDs := c.network }, none)
  else (freezeAppend t, none)

/-- Embeds `FreezeWith` (transfer_transaction.go): initialize fee, initialize
the transaction id (propagating its error), store the transfer body via
`onFreeze`, then run `transaction_freezeWith`.  The Go method returns the
(possibly partially updated) receiver together with an optional error, which
is modelled as a pair. -/
def TransferTransaction.FreezeWith (t : TransferTransaction) (client : Option Client)
    (now : Nat) : TransferTransaction × Option HederaError :=
  match (t.initFee client).initTransactionID client now with
  | .error e => (t.initFee client, some e)
  | .ok t2 => transaction_freezeWith client t2.onFreeze

/-- Embeds `Freeze` (transfer_transaction.go): `FreezeWith(nil)`.  No client
means no clock is consulted (the id must already be set to succeed), so the
time argument is irrelevant and fixed to 0. -/
def TransferTransaction.Freeze (t : TransferTransaction) :
    TransferTransaction × Option HederaError :=
  t.FreezeWith none 0

/-- Modelled from the spec: `keyAlreadySigned` (absent from src/) realizes
"if that public key already signed, the call is a silent no-op": it checks the
per-node signature maps for an entry keyed by this public key. -/
def TransferTransaction.keyAlreadySigned (t : TransferTransaction) (publicKey : PublicKey) :
    Bool :=
  t.signatures.any (fun m => m.any (fun p => decide (p.1 = publicKey)))

/-- The signing step of `SignWith` on an (auto-)frozen transaction: skip if
the key already signed, otherwise append `(publicKey, signer bodyBytes)` to
each per-node signature map.  The Go loop writes `signatures[index]` for each
index below `len(transactions)`; with the maps index-aligned this is the
`zipWith` (any surplus maps are untouched). -/
def signWithCore (t1 : TransferTransaction) (publicKey : PublicKey)
    (signer : TransactionBody → List Byte) : TransferTransaction :=
  if t1.keyAlreadySigned publicKey then t1
  else
    { t1 with signatures :=
        (List.zipWith (fun m body => m ++ [(publicKey, signer body)]) t1.signatures
          t1.transactions) ++ t1.signatures.drop t1.transactions.length }

/-- Embeds `SignWith` (transfer_transaction.go): auto-freeze if needed — the
`Freeze()` error is discarded and signing proceeds on the possibly-unfrozen
receiver, exactly as in the Go source — then run the signing step. -/
def TransferTransaction.SignWith (t : TransferTransaction) (publicKey : PublicKey)
    (signer : TransactionBody → List Byte) : TransferTransaction :=
  signWithCore (if t.IsFrozen then t else t.Freeze.1) publicKey signer

/-- Embeds `Sign` (transfer_transaction.go): `SignWith` on the private key's
public half and signing function. -/
def TransferTransaction.Sign (t : TransferTransaction) (publicKey : PublicKey)
    (signer : TransactionBody → List Byte) : TransferTransaction :=
  t.SignWith publicKey signer

/-- Embeds `Client.GetOperatorAccountID`: the operator's account, or the zero
account when no operator is configured. -/
def Client.GetOperatorAccountID (c : Client) : AccountID :=
  match c.operator with
  | some op => op.accountID
  | none => { shard := 0, realm := 0, account := 0, checksum := none }

/-- Embeds `Client.GetOperatorPublicKey`. -/
def Client.GetOperatorPublicKey (c : Client) : PublicKey :=
  match c.operator with
  | some op => op.publicKey
  | none => []

/-- The operator's signing function.  The Go `Execute` dereferences
`client.operator.signer` only under the guard that the operator account is
non-zero, so the `none` branch is unreachable there; it is modelled as a
signer producing empty signatures. -/
def Client.GetOperatorSigner (c : Client) : TransactionBody → List Byte :=
  match c.operator with
  | some op => op.signer
  | none => fun _ => []

/-- The payer read by `Execute`: the transaction id's account (`transaction.id`
is a zero value in Go when unset). -/
def TransferTransaction.payerAccount (t : TransferTransaction) : AccountID :=
  match t.id with
  | some tid => tid.accountID
  | none => { shard := 0, realm := 0, account := 0, checksum := none }

/-- The operator auto-signing step of `Execute`: when the configured operator
account is non-zero and equals the transaction id's payer account, sign with
the operator key. -/
def executeSignStep (client : Client) (t1 : TransferTransaction) : TransferTransaction :=
  if !client.GetOperatorAccountID.isZero &&
      client.GetOperatorAccountID.equals t1.payerAccount then
    t1.SignWith client.GetOperatorPublicKey client.GetOperatorSigner
  else t1

/-- Embeds the pre-dispatch phase of `Execute` (transfer_transaction.go):
freeze with the client if not yet frozen, then auto-sign with the operator
when it is the payer.  The transaction in this state is what is handed to the
execution engine by the subsequent `execute(...)` call. -/
def TransferTransaction.ExecutePrep (t : TransferTransaction) (client : Client) (now : Nat) :
    TransferTransaction :=
  executeSignStep client (if t.IsFrozen then t else (t.FreezeWith (some client) now).1)

/-- The two supported key schemes (spec section 4.1). -/
inductive KeyScheme where
  | ed25519
  | ecdsaSecp256k1
deriving DecidableEq

/-- Modelled from the spec: `PrivateKey` "{scheme: Ed25519|ECDSA-secp256k1,
keyBytes, optional chainCode}" (the key-material code itself is absent from
src/).  Only the 32-byte key material participates in the string round trip. -/
structure PrivateKey where
  scheme : KeyScheme
  keyData : List Byte
deriving DecidableEq

/-- Hexadecimal character of a value below 16. -/
def hexChar (n : Nat) : Char :=
  if n < 10 then Char.ofNat (48 + n) else Char.ofNat (87 + n)

/-- Inverse of `hexChar` on lowercase hexadecimal characters. -/
def hexCharVal (c : Char) : Option (Fin 16) :=
  if h : 48 ≤ c.toNat ∧ c.toNat ≤ 57 then some ⟨c.toNat - 48, by omega⟩
  else if h2 : 97 ≤ c.toNat ∧ c.toNat ≤ 102 then some ⟨c.toNat - 87, by omega⟩
  else none

/-- Lowercase hexadecimal rendering of a byte list. -/
def bytesToHex (bs : List Byte) : List Char :=
  bs.flatMap (fun b => [hexChar (b.val / 16), hexChar (b.val % 16)])

/-- Parse a lowercase/uppercase-free hexadecimal character list back into
bytes; odd length or a non-hex character fails. -/
def hexToBytes : List Char → Option (List Byte)
  | [] => some []
  | [_] => none
  | c1 :: c2 :: rest =>
    match hexCharVal c1, hexCharVal c2, hexToBytes rest with
    | some hi, some lo, some bs => some (⟨hi.val * 16 + lo.val, by omega⟩ :: bs)
    | _, _, _ => none

/-- The PKCS#8 DER framing bytes in front of a raw Ed25519 private key, per the
`302e020100300506032b657004220420...` form the unit tests fix. -/
def ed25519DerHeader : List Byte :=
  [0x30, 0x2e, 0x02, 0x01, 0x00, 0x30, 0x05, 0x06, 0x03, 0x2b, 0x65, 0x70, 0x04, 0x22,
   0x04, 0x20]

/-- The DER framing bytes in front of a raw ECDSA-secp256k1 private key, per
the `3030020100300706052b8104000a04220420...` form the unit tests fix. -/
def ecdsaDerHeader : List Byte :=
  [0x30, 0x30, 0x02, 0x01, 0x00, 0x30, 0x07, 0x06, 0x05, 0x2b, 0x81, 0x04, 0x00, 0x0a,
   0x04, 0x22, 0x04, 0x20]

/-- Modelled from the spec: the DER byte form a `PrivateKey` exports
(scheme-specific framing followed by the raw key bytes). -/
def PrivateKey.derBytes (k : PrivateKey) : List Byte :=
  match k.scheme with
  | .ed25519 => ed25519DerHeader ++ k.keyData
  | .ecdsaSecp256k1 => ecdsaDerHeader ++ k.keyData

/-- Modelled from the spec: `PrivateKey.String()`, the lowercase-hex DER
export the unit tests round-trip. -/
def PrivateKey.toStringDer (k : PrivateKey) : List Char :=
  bytesToHex k.derBytes

/-- Modelled from the spec: `PrivateKey.StringRaw()`, the lowercase-hex export
of the raw key bytes alone. -/
def PrivateKey.toStringRaw (k : PrivateKey) : List Char :=
  bytesToHex k.keyData

/-- Modelled from the spec: `PrivateKeyFromStringEd25519`.  "Parsing
auto-detects raw-hex vs DER(PKCS#8/SPKI) framing by length/prefix": a 48-byte
DER-framed payload, a bare 32-byte seed, or the legacy 64-byte
seed-plus-public-key concatenation are accepted. -/
def PrivateKeyBytesEd25519 (bs : List Byte) : Option PrivateKey :=
  if bs.length = 48 ∧ bs.take 16 = ed25519DerHeader then
    some { scheme := .ed25519, keyData := bs.drop 16 }
  else if bs.length = 32 then some { scheme := .ed25519, keyData := bs }
  else if bs.length = 64 then some { scheme := .ed25519, keyData := bs.take 32 }
  else none

def PrivateKeyFromStringEd25519 (s : List Char) : Option PrivateKey :=
  (hexToBytes s).bind PrivateKeyBytesEd25519

/-- Modelled from the spec: `PrivateKeyFromStringECSDA` (the Go name carries
the typo): a 50-byte DER-framed payload or a bare 32-byte scalar. -/
def PrivateKeyBytesECDSA (bs : List Byte) : Option PrivateKey :=
  if bs.length = 50 ∧ bs.take 18 = ecdsaDerHeader then
    some { scheme := .ecdsaSecp256k1, keyData := bs.drop 18 }
  else if bs.length = 32 then some { scheme := .ecdsaSecp256k1, keyData := bs }
  else none

def PrivateKeyFromStringECSDA (s : List Char) : Option PrivateKey :=
  (hexToBytes s).bind PrivateKeyBytesECDSA

/-- Modelled from the spec: `PrivateKeyFromString` auto-detects the scheme
from the framing, trying the Ed25519 forms first and then the ECDSA DER form,
as the SDK's dispatcher does. -/
def PrivateKeyBytesAuto (bs : List Byte) : Option PrivateKey :=
  if bs.length = 48 ∧ bs.take 16 = ed25519DerHeader then
    some { scheme := .ed25519, keyData := bs.drop 16 }
  else if bs.length = 50 ∧ bs.take 18 = ecdsaDerHeader then
    some { scheme := .ecdsaSecp256k1, keyData := bs.drop 18 }
  else if bs.length = 32 then some { scheme := .ed25519, keyData := bs }
  else if bs.length = 64 then some { scheme := .ed25519, keyData := bs.take 32 }
  else none

def PrivateKeyFromString (s : List Char) : Option PrivateKey :=
  (hexToBytes s).bind PrivateKeyBytesAuto

/-- A candidate consensus node used in concrete instances. -/
def exNode : AccountID := { shard := 0, realm := 0, account := 3, checksum := none }

/-- A payer account used in concrete instances. -/
def exPayer : AccountID := { shard := 0, realm := 0, account := 2, checksum := none }

/-- A transaction id used in concrete instances. -/
def exTid : TransactionID := { accountID := exPayer, validStart := 5 }

/-- A buildable transaction with id and node list already set. -/
def exBase : TransferTransaction :=
  { NewTransferTransaction with id := some exTid, nodeIDs := [exNode] }

/-- The frozen form of `exBase`. -/
def exFrozen : TransferTransaction := exBase.Freeze.1

/-- A public key used in concrete instances. -/
def exKey : PublicKey := [(1 : Byte)]

/-- A signing function used in concrete instances. -/
def exSigner : TransactionBody → List Byte := fun _ => [(7 : Byte)]

/-- C9: `NetworkName.Network` is total only on the three named networks — it
returns "0" for mainnet, "1" for testnet, "2" for previewnet, and panics
(modelled as `none`) for every other `NetworkName` value, `NetworkName` being
an open string type. -/
theorem c9_network_partial_on_named_networks :
    ∀ s : NetworkName,
      NetworkName.Network "mainnet" = some "0" ∧
      NetworkName.Network "testnet" = some "1" ∧
      NetworkName.Network "previewnet" = some "2" ∧
      (s ≠ "mainnet" → s ≠ "testnet" → s ≠ "previewnet" → NetworkName.Network s = none) := by
  intro s
  refine ⟨by decide, by decide, by decide, fun h1 h2 h3 => ?_⟩
  simp [NetworkName.Network, h1, h2, h3]

/-- C9 witness: the three named networks map to their ledger digits, and a
concrete unnamed network value panics (is `none`). -/
theorem c9_network_partial_on_named_networks_witness :
    NetworkName.Network "mainnet" = some "0" ∧
    NetworkName.Network "testnet" = some "1" ∧
    NetworkName.Network "previewnet" = some "2" ∧
    NetworkName.Network "localnet" = none :=
  ⟨(c9_network_partial_on_named_networks "localnet").1,
   (c9_network_partial_on_named_networks "localnet").2.1,
   (c9_network_partial_on_named_networks "localnet").2.2.1,
   (c9_network_partial_on_named_networks "localnet").2.2.2 (by decide) (by decide) (by decide)⟩

/-- C4: against a testnet-configured client with checksum auto-validation,
the entity reference 0.0.123-rmkyk validates with no error, while
0.0.123-rmkykd fails — purely locally, before any node call (the validator is
a pure function) — with an error stating given checksum rmkykd, correct
checksum rmkyk, and network testnet, in exactly the message text asserted by
`TestUnitTransactionReceiptQueryValidateWrong`. -/
theorem c4_testnet_checksum_scenario :
    AccountIDFromString "0.0.123-rmkyk" =
      some { shard := 0, realm := 0, account := 123, checksum := some "rmkyk" } ∧
    validateChecksum "testnet"
      { shard := 0, realm := 0, account := 123, checksum := some "rmkyk" } = .ok () ∧
    AccountIDFromString "0.0.123-rmkykd" =
      some { shard := 0, realm := 0, account := 123, checksum := some "rmkykd" } ∧
    validateChecksum "testnet"
      { shard := 0, realm := 0, account := 123, checksum := some "rmkykd" } =
      .error { given := "rmkykd", correct := "rmkyk", network := "testnet" } ∧
    ChecksumError.message { given := "rmkykd", correct := "rmkyk", network := "testnet" } =
      "network mismatch or wrong checksum given, given checksum: rmkykd, correct checksum rmkyk, network: testnet" := by
  refine ⟨by decide, by decide, by decide, by decide, by decide⟩

/-- C1: on a frozen transaction every setter fails with `TransactionIsFrozen`;
failure carries no updated transaction, so no body field is mutated. -/
theorem c1_setters_fail_on_frozen :
    ∀ (t : TransferTransaction) (a : AccountID) (amt : Int) (tok : TokenID) (v : Int)
      (tid : TransactionID) (nodes : List AccountID) (fee : Nat) (memo : String) (dur : Nat),
      t.IsFrozen = true →
      t.AddHbarTransfer a amt = .error .transactionIsFrozen ∧
      t.AddTokenTransfer tok a v = .error .transactionIsFrozen ∧
      t.SetMaxTransactionFee fee = .error .transactionIsFrozen ∧
      t.SetTransactionMemo memo = .error .transactionIsFrozen ∧
      t.SetTransactionValidDuration dur = .error .transactionIsFrozen ∧
      t.SetTransactionID tid = .error .transactionIsFrozen ∧
      t.SetNodeAccountIDs nodes = .error .transactionIsFrozen := by
  intro t a amt tok v tid nodes fee memo dur hf
  refine ⟨?_, ?_, ?_, ?_, ?_, ?_, ?_⟩ <;>
    simp [TransferTransaction.AddHbarTransfer, TransferTransaction.AddTokenTransfer,
      TransferTransaction.SetMaxTransactionFee, TransferTransaction.SetTransactionMemo,
      TransferTransaction.SetTransactionValidDuration, TransferTransaction.SetTransactionID,
      TransferTransaction.SetNodeAccountIDs, TransferTransaction.requireNotFrozen, hf]

/-- C1 witness: a concrete frozen transfer transaction rejects all seven
setters. -/
theorem c1_setters_fail_on_frozen_witness :
    exFrozen.IsFrozen = true ∧
    exFrozen.AddHbarTransfer exPayer 5 = .error .transactionIsFrozen ∧
    exFrozen.AddTokenTransfer { shard := 0, realm := 0, token := 9 } exPayer 5 =
      .error .transactionIsFrozen ∧
    exFrozen.SetMaxTransactionFee 10 = .error .transactionIsFrozen ∧
    exFrozen.SetTransactionMemo "m" = .error .transactionIsFrozen ∧
    exFrozen.SetTransactionValidDuration 60 = .error .transactionIsFrozen ∧
    exFrozen.SetTransactionID exTid = .error .transactionIsFrozen ∧
    exFrozen.SetNodeAccountIDs [exNode] = .error .transactionIsFrozen := by
  have h := c1_setters_fail_on_frozen exFrozen exPayer 5 { shard := 0, realm := 0, token := 9 } 5
    exTid [exNode] 10 "m" 60 (by decide)
  exact ⟨by decide, h.1, h.2.1, h.2.2.1, h.2.2.2.1, h.2.2.2.2.1, h.2.2.2.2.2.1, h.2.2.2.2.2.2⟩

/-- A client with a default max fee but no operator configured (as built by
`ClientForTestnet` before `SetOperator`). -/
def exClientNoOperator : Client :=
  { operator := none, maxTransactionFee := 100000000, network := [exNode], networkName := "testnet" }

/-- A transaction whose id is set but whose node list is empty. -/
def exWithIdOnly : TransferTransaction := { NewTransferTransaction with id := some exTid }

/-- C5 counterexample: two failing `FreezeWith` calls that do mutate the
transaction.  With a client that has a default fee but no operator, the failed
call sets the previously-unset max fee; with no client on a transaction with
an id but no node list, the failed call stores the wire body's data field. -/
theorem c5_counterexample_failed_freeze_mutates :
    ((NewTransferTransaction.FreezeWith (some exClientNoOperator) 0).2.isSome = true ∧
      (NewTransferTransaction.FreezeWith (some exClientNoOperator) 0).1.transactionFee ≠
        NewTransferTransaction.transactionFee) ∧
    ((exWithIdOnly.FreezeWith none 0).2.isSome = true ∧
      (exWithIdOnly.FreezeWith none 0).1.pbBodyData ≠ exWithIdOnly.pbBodyData) := by
  refine ⟨⟨by decide, by decide⟩, by decide, by decide⟩

/-- The fields of a transaction that `initFee` never touches. -/
theorem initFee_preserves (t : TransferTransaction) (c : Option Client) :
    (t.initFee c).id = t.id ∧ (t.initFee c).nodeIDs = t.nodeIDs ∧
    (t.initFee c).transactions = t.transactions ∧ (t.initFee c).signatures = t.signatures ∧
    (t.initFee c).pb = t.pb ∧ (t.initFee c).tokenIndexes = t.tokenIndexes ∧
    (t.initFee c).memo = t.memo ∧ (t.initFee c).validDuration = t.validDuration ∧
    (t.initFee c).pbBodyData = t.pbBodyData := by
  unfold TransferTransaction.initFee
  cases c <;> simp
  split <;> simp

/-- C5 (amended): a failed `FreezeWith` leaves the transaction id, node list,
per-node bodies, signature maps, transfer body, token indexes, memo and valid
duration unchanged; only the max fee (set by `initFee` before the id error)
and the wire body's stored data field may have been updated, as the
counterexample forces. -/
theorem c5_failed_freeze_preserves_core_fields :
    ∀ (t t' : TransferTransaction) (c : Option Client) (now : Nat) (e : HederaError),
      t.FreezeWith c now = (t', some e) →
      t'.id = t.id ∧ t'.nodeIDs = t.nodeIDs ∧ t'.transactions = t.transactions ∧
      t'.signatures = t.signatures ∧ t'.pb = t.pb ∧ t'.tokenIndexes = t.tokenIndexes ∧
      t'.memo = t.memo ∧ t'.validDuration = t.validDuration := by
  intro t t' c now e h
  unfold TransferTransaction.FreezeWith at h
  split at h
  · -- initTransactionID failed: the result is the receiver after initFee
    simp only [Prod.mk.injEq] at h
    obtain ⟨h1, _⟩ := h
    subst h1
    have hp := initFee_preserves t c
    exact ⟨hp.1, hp.2.1, hp.2.2.1, hp.2.2.2.1, hp.2.2.2.2.1, hp.2.2.2.2.2.1,
      hp.2.2.2.2.2.2.1, hp.2.2.2.2.2.2.2.1⟩
  · -- initTransactionID succeeded: only transaction_freezeWith can fail
    rename_i t2 heq
    unfold transaction_freezeWith at h
    split at h
    · simp at h
    · split at h
      · split at h
        · -- no node list and no client: the result is the receiver after onFreeze
          simp only [Prod.mk.injEq] at h
          obtain ⟨h1, _⟩ := h
          subst h1
          have ht2 : t2 = t := by
            unfold TransferTransaction.initTransactionID at heq
            split at heq
            · simp only [TransferTransaction.initFee] at heq
              exact (Except.ok.inj heq).symm
            · simp at heq
          subst ht2
          unfold TransferTransaction.onFreeze
          simp
        · simp at h
      · simp at h

/-- C5 (amended) witness: applying the preservation theorem to the concrete
failing call with no client. -/
theorem c5_failed_freeze_preserves_core_fields_witness :
    (exWithIdOnly.FreezeWith none 0).2 = some .noClientOrTransactionIDOrNodeId ∧
    ((exWithIdOnly.FreezeWith none 0).1.id = exWithIdOnly.id ∧
      (exWithIdOnly.FreezeWith none 0).1.nodeIDs = exWithIdOnly.nodeIDs ∧
      (exWithIdOnly.FreezeWith none 0).1.transactions = exWithIdOnly.transactions ∧
      (exWithIdOnly.FreezeWith none 0).1.signatures = exWithIdOnly.signatures ∧
      (exWithIdOnly.FreezeWith none 0).1.pb = exWithIdOnly.pb ∧
      (exWithIdOnly.FreezeWith none 0).1.tokenIndexes = exWithIdOnly.tokenIndexes ∧
      (exWithIdOnly.FreezeWith none 0).1.memo = exWithIdOnly.memo ∧
      (exWithIdOnly.FreezeWith none 0).1.validDuration = exWithIdOnly.validDuration) :=
  ⟨by decide,
   c5_failed_freeze_preserves_core_fields exWithIdOnly (exWithIdOnly.FreezeWith none 0).1 none 0
     .noClientOrTransactionIDOrNodeId (by decide)⟩

/-- After `initFee` with a client present, the max fee is set. -/
theorem initFee_fee_isSome (t : TransferTransaction) (c0 : Client) :
    ((t.initFee (some c0)).transactionFee).isSome = true := by
  simp only [TransferTransaction.initFee]
  split
  · simp
  · rename_i h
    simpa [Option.isSome_iff_ne_none] using h

/-- A transaction whose max fee is already set passes `initFee` unchanged. -/
theorem initFee_noop (t : TransferTransaction) (c : Option Client)
    (h : t.transactionFee.isSome = true) : t.initFee c = t := by
  cases c with
  | none => simp only [TransferTransaction.initFee]
  | some c0 =>
    simp only [TransferTransaction.initFee]
    split
    · rename_i h2
      rw [h2] at h
      simp at h
    · rfl

/-- A successful `initTransactionID` leaves the id set. -/
theorem initTransactionID_ok_isSome {t t2 : TransferTransaction} {c : Option Client} {now : Nat}
    (h : t.initTransactionID c now = .ok t2) : t2.id.isSome = true := by
  unfold TransferTransaction.initTransactionID at h
  split at h
  · rename_i hs
    cases Except.ok.inj h
    exact hs
  · split at h
    · split at h
      · cases Except.ok.inj h
        simp
      · simp at h
    · simp at h

/-- `initTransactionID` touches nothing but the id. -/
theorem initTransactionID_ok_preserves {t t2 : TransferTransaction} {c : Option Client}
    {now : Nat} (h : t.initTransactionID c now = .ok t2) :
    t2.transactionFee = t.transactionFee ∧ t2.pb = t.pb ∧ t2.pbBodyData = t.pbBodyData ∧
    t2.nodeIDs = t.nodeIDs ∧ t2.transactions = t.transactions ∧
    t2.signatures = t.signatures := by
  unfold TransferTransaction.initTransactionID at h
  split at h
  · cases Except.ok.inj h
    exact ⟨rfl, rfl, rfl, rfl, rfl, rfl⟩
  · split at h
    · split at h
      · cases Except.ok.inj h
        exact ⟨rfl, rfl, rfl, rfl, rfl, rfl⟩
      · simp at h
    · simp at h

/-- A transaction whose id is set passes `initTransactionID` unchanged. -/
theorem initTransactionID_noop (t : TransferTransaction) (c : Option Client) (now : Nat)
    (h : t.id.isSome = true) : t.initTransactionID c now = .ok t := by
  unfold TransferTransaction.initTransactionID
  simp [h]

/-- A transaction whose wire-body data already holds its transfer body passes
`onFreeze` unchanged. -/
theorem onFreeze_noop (t : TransferTransaction) (h : t.pbBodyData = some t.pb) :
    t.onFreeze = t := by
  unfold TransferTransaction.onFreeze
  rw [← h]

/-- `freezeAppend` on an empty node list changes nothing. -/
theorem freezeAppend_noop (t : TransferTransaction) (h : t.nodeIDs = []) :
    freezeAppend t = t := by
  cases t with
  | mk pb ti fee memo vd id nodes data txs sigs =>
    simp only at h
    subst h
    simp [freezeAppend]

/-- The fields `freezeAppend` preserves and the shape of those it extends. -/
theorem freezeAppend_fields (u : TransferTransaction) :
    (freezeAppend u).id = u.id ∧ (freezeAppend u).transactionFee = u.transactionFee ∧
    (freezeAppend u).pb = u.pb ∧ (freezeAppend u).pbBodyData = u.pbBodyData ∧
    (freezeAppend u).nodeIDs = u.nodeIDs ∧
    (freezeAppend u).transactions = u.transactions ++ u.nodeIDs.map u.bodyForNode := by
  unfold freezeAppend
  exact ⟨rfl, rfl, rfl, rfl, rfl, rfl⟩

/-- A transaction is frozen exactly when per-node bodies exist. -/
theorem isFrozen_iff (u : TransferTransaction) :
    u.IsFrozen = true ↔ u.transactions ≠ [] := by
  unfold TransferTransaction.IsFrozen
  simp

/-- The `FreezeWith` pipeline on a transaction it can pass through
unchanged. -/
theorem freezeWith_second (u : TransferTransaction) (c : Option Client) (now' : Nat)
    (hid : u.id.isSome = true)
    (hfee : ∀ c0, c = some c0 → u.transactionFee.isSome = true)
    (hdata : u.pbBodyData = some u.pb)
    (hfw : transaction_freezeWith c u = (u, none)) :
    u.FreezeWith c now' = (u, none) := by
  unfold TransferTransaction.FreezeWith
  have h1 : u.initFee c = u := by
    cases hc : c
    · unfold TransferTransaction.initFee
      rfl
    · exact initFee_noop u _ (hfee _ hc)
  rw [h1, initTransactionID_noop u c now' hid]
  show transaction_freezeWith c u.onFreeze = (u, none)
  rw [onFreeze_noop u hdata]
  exact hfw

/-- A frozen transaction passes `transaction_freezeWith` unchanged. -/
theorem transaction_freezeWith_frozen (c : Option Client) (u : TransferTransaction)
    (h : u.IsFrozen = true) : transaction_freezeWith c u = (u, none) := by
  unfold transaction_freezeWith
  simp [h]

/-- Appending bodies for a non-empty node list freezes the transaction. -/
theorem freezeAppend_frozen (u : TransferTransaction) (h : u.nodeIDs ≠ []) :
    (freezeAppend u).IsFrozen = true := by
  rw [isFrozen_iff]
  simp only [freezeAppend]
  simp [h]

/-- `transaction_freezeWith` with a client whose healthy-node list is empty,
on an unfrozen transaction with no node list, returns its input unchanged. -/
theorem transaction_freezeWith_empty_network (c0 : Client) (u : TransferTransaction)
    (hfr : u.IsFrozen = false) (hnodes : u.nodeIDs = []) (hnet : c0.network = []) :
    transaction_freezeWith (some c0) u = (u, none) := by
  have h1 : ¬(u.IsFrozen = true) := by simp [hfr]
  have h2 : u.nodeIDs.isEmpty = true := by simp [hnodes]
  unfold transaction_freezeWith
  rw [if_neg h1, if_pos h2]
  show (freezeAppend { u with nodeIDs := c0.network }, none) = (u, none)
  have h3 : { u with nodeIDs := c0.network } = u := by
    cases u with
    | mk pb ti fee memo vd id nodes data txs sigs =>
      simp only at hnodes
      subst hnodes
      simp [hnet]
  rw [h3, freezeAppend_noop u hnodes]

/-- `transaction_freezeWith` is a no-op on the output of a node-list
resolution followed by `freezeAppend`. -/
theorem transaction_freezeWith_post_append (c0 : Client) (u : TransferTransaction)
    (htx : u.transactions = []) (hnodes : u.nodeIDs = c0.network) :
    transaction_freezeWith (some c0) (freezeAppend u) = (freezeAppend u, none) := by
  cases hnet : c0.network with
  | nil =>
    have hn : u.nodeIDs = [] := by rw [hnodes, hnet]
    rw [freezeAppend_noop u hn]
    have hfr : u.IsFrozen = false := by
      simp [TransferTransaction.IsFrozen, htx]
    exact transaction_freezeWith_empty_network c0 u hfr hn hnet
  | cons x xs =>
    refine transaction_freezeWith_frozen _ _ (freezeAppend_frozen _ ?_)
    rw [hnodes, hnet]
    simp

/-- C3: Freeze is idempotent — on the transaction produced by any successful
`Freeze`/`FreezeWith`, a second call with the same client succeeds as a strict
no-op (same transaction back, no error), in particular changing neither the
`TransactionID` nor the candidate node list. -/
theorem c3_freeze_idempotent :
    ∀ (t t' : TransferTransaction) (c : Option Client) (now now' : Nat),
      t.FreezeWith c now = (t', none) → t'.FreezeWith c now' = (t', none) := by
  intro t t' c now now' h
  unfold TransferTransaction.FreezeWith at h
  split at h
  · simp at h
  · rename_i t2 heq
    have hid2 : t2.id.isSome = true := initTransactionID_ok_isSome heq
    have hfee2 : ∀ c0, c = some c0 → t2.transactionFee.isSome = true := by
      intro c0 hc
      subst hc
      rw [(initTransactionID_ok_preserves heq).1]
      exact initFee_fee_isSome t c0
    unfold transaction_freezeWith at h
    split at h
    · -- the input was already frozen: the result is t2.onFreeze itself
      rename_i hfroz
      simp only [Prod.mk.injEq] at h
      obtain ⟨h1, _⟩ := h
      subst h1
      exact freezeWith_second _ c now' hid2 hfee2 rfl
        (transaction_freezeWith_frozen c _ hfroz)
    · rename_i hnf
      have htx : t2.onFreeze.transactions = [] := by
        have := (isFrozen_iff t2.onFreeze).not.mp hnf
        exact not_not.mp (by simpa using this)
      split at h
      · -- the node list is resolved from the client's network
        rename_i hempty
        split at h
        · simp at h
        · rename_i c0
          simp only [Prod.mk.injEq] at h
          obtain ⟨h1, _⟩ := h
          subst h1
          exact freezeWith_second _ _ now' hid2 hfee2 rfl
            (transaction_freezeWith_post_append c0 _ htx rfl)
      · -- the node list was already set
        rename_i hnempty
        simp only [Prod.mk.injEq] at h
        obtain ⟨h1, _⟩ := h
        subst h1
        refine freezeWith_second _ _ now' hid2 hfee2 rfl ?_
        refine transaction_freezeWith_frozen _ _ (freezeAppend_frozen _ ?_)
        simpa using hnempty

/-- C3 witness: freezing a concrete buildable transaction and freezing the
result again returns it unchanged with no error. -/
theorem c3_freeze_idempotent_witness :
    exBase.FreezeWith none 0 = (exFrozen, none) ∧
    exFrozen.FreezeWith none 1 = (exFrozen, none) :=
  ⟨by decide, c3_freeze_idempotent exBase exFrozen none 0 1 (by decide)⟩

/-- C7 counterexample: `SignWith` on a fresh, never-frozen transaction (no id,
no node list) does not freeze it — the internal `Freeze()` fails, its error is
discarded, and the transaction stays unfrozen with no signature added. -/
theorem c7_counterexample_sign_does_not_freeze :
    (NewTransferTransaction.SignWith exKey exSigner).IsFrozen = false ∧
    (NewTransferTransaction.SignWith exKey exSigner).signatures = [] := by
  refine ⟨by decide, by decide⟩

/-- Zipping the per-body signing step over fresh (empty) per-node signature
maps yields one single-entry map per body. -/
theorem zipWith_sign_fresh (pk : PublicKey) (s : TransactionBody → List Byte) :
    ∀ l : List TransactionBody,
      List.zipWith (fun m body => m ++ [(pk, s body)])
          (l.map (fun _ => ([] : List (PublicKey × List Byte)))) l =
        l.map (fun b => [(pk, s b)]) := by
  intro l
  induction l with
  | nil => rfl
  | cons x xs ih => simp only [List.map_cons, List.zipWith_cons_cons, List.nil_append, ih]

/-- Signing a freshly frozen transaction (empty per-node signature maps)
appends exactly one entry per node keyed by the public key. -/
theorem signWithCore_fresh (u : TransferTransaction) (pk : PublicKey)
    (s : TransactionBody → List Byte)
    (hsig : u.signatures = u.transactions.map (fun _ => [])) :
    (signWithCore u pk s).signatures = u.transactions.map (fun b => [(pk, s b)]) ∧
    (signWithCore u pk s).transactions = u.transactions := by
  unfold signWithCore
  have hkas : u.keyAlreadySigned pk = false := by
    unfold TransferTransaction.keyAlreadySigned
    rw [hsig]
    simp
  rw [hkas]
  simp only [Bool.false_eq_true, if_false]
  refine ⟨?_, trivial⟩
  show List.zipWith _ u.signatures u.transactions ++ u.signatures.drop u.transactions.length = _
  rw [hsig, zipWith_sign_fresh pk s u.transactions]
  simp

/-- C7 (amended): on a not-yet-frozen transaction whose `TransactionID` and
node list are already set (so that the client-less auto-`Freeze()` succeeds),
`Sign`/`SignWith` freezes the transaction and each per-node serialized body
carries a signature by the given key; when the auto-freeze cannot succeed the
error is silently discarded and the transaction stays unfrozen and unsigned,
as the counterexample shows. -/
theorem c7_amended_sign_autofreezes_when_ready :
    ∀ (pk : PublicKey) (s : TransactionBody → List Byte) (t : TransferTransaction),
      t.IsFrozen = false → t.id.isSome = true → t.nodeIDs ≠ [] → t.signatures = [] →
      (t.SignWith pk s).IsFrozen = true ∧
      (t.SignWith pk s).transactions.length = t.nodeIDs.length ∧
      (t.SignWith pk s).signatures = (t.SignWith pk s).transactions.map (fun b => [(pk, s b)]) := by
  intro pk s t hfr hid hnodes hsigs
  have htx : t.transactions = [] := by
    have := (isFrozen_iff t).not.mp (by simp [hfr])
    exact not_not.mp (by simpa using this)
  have hfreeze : t.Freeze = (freezeAppend t.onFreeze, none) := by
    unfold TransferTransaction.Freeze TransferTransaction.FreezeWith
    have h1 : t.initFee none = t := by simp only [TransferTransaction.initFee]
    rw [h1, initTransactionID_noop t none 0 hid]
    show transaction_freezeWith none t.onFreeze = _
    unfold transaction_freezeWith
    rw [if_neg, if_neg]
    · simpa [TransferTransaction.onFreeze] using hnodes
    · simp [TransferTransaction.IsFrozen, TransferTransaction.onFreeze, htx]
  have hstep : t.SignWith pk s = signWithCore (freezeAppend t.onFreeze) pk s := by
    unfold TransferTransaction.SignWith
    rw [if_neg (by simp [hfr]), hfreeze]
  have hutx : (freezeAppend t.onFreeze).transactions =
      t.nodeIDs.map t.onFreeze.bodyForNode := by
    simp [freezeAppend, TransferTransaction.onFreeze, htx]
  have husig : (freezeAppend t.onFreeze).signatures =
      (freezeAppend t.onFreeze).transactions.map (fun _ => []) := by
    rw [hutx, List.map_map]
    have h1 : t.onFreeze.signatures = [] := hsigs
    show t.onFreeze.signatures ++ t.onFreeze.nodeIDs.map (fun _ => []) =
      t.nodeIDs.map ((fun _ => []) ∘ t.onFreeze.bodyForNode)
    rw [h1]
    rfl
  have hcore := signWithCore_fresh (freezeAppend t.onFreeze) pk s husig
  refine ⟨?_, ?_, ?_⟩
  · rw [hstep, isFrozen_iff, hcore.2, hutx]
    simp [hnodes]
  · rw [hstep, hcore.2, hutx]
    simp
  · rw [hstep, hcore.1, hcore.2]

/-- C7 (amended) witness: on the concrete buildable transaction, signing
freezes it and yields one signature by the key on the single per-node body. -/
theorem c7_amended_sign_autofreezes_when_ready_witness :
    (exBase.SignWith exKey exSigner).IsFrozen = true ∧
    (exBase.SignWith exKey exSigner).transactions.length = exBase.nodeIDs.length ∧
    (exBase.SignWith exKey exSigner).signatures =
      (exBase.SignWith exKey exSigner).transactions.map (fun b => [(exKey, exSigner b)]) :=
  c7_amended_sign_autofreezes_when_ready exKey exSigner exBase (by decide) (by decide)
    (by decide) (by decide)

/-- Number of entries keyed by the given public key in one signature map. -/
def countKey (pk : PublicKey) (m : List (PublicKey × List Byte)) : Nat :=
  m.countP (fun p => decide (p.1 = pk))

/-- Every per-node signature map holds exactly `n` entries for the key. -/
def allCount (pk : PublicKey) (n : Nat) (t : TransferTransaction) : Bool :=
  t.signatures.all (fun m => countKey pk m == n)

/-- Every per-node signature map holds at most one entry for the key. -/
def allAtMostOne (pk : PublicKey) (t : TransferTransaction) : Bool :=
  t.signatures.all (fun m => decide (countKey pk m ≤ 1))

/-- Propositional reading of `allCount`. -/
theorem allCount_iff (pk : PublicKey) (n : Nat) (t : TransferTransaction) :
    allCount pk n t = true ↔ ∀ m ∈ t.signatures, countKey pk m = n := by
  unfold allCount
  simp [List.all_eq_true]

/-- Propositional reading of `allAtMostOne`. -/
theorem allAtMostOne_iff (k : PublicKey) (t : TransferTransaction) :
    allAtMostOne k t = true ↔ ∀ m ∈ t.signatures, countKey k m ≤ 1 := by
  unfold allAtMostOne
  simp [List.all_eq_true]

/-- Propositional reading of `keyAlreadySigned`. -/
theorem keyAlreadySigned_iff (t : TransferTransaction) (pk : PublicKey) :
    t.keyAlreadySigned pk = true ↔ ∃ m ∈ t.signatures, 0 < countKey pk m := by
  unfold TransferTransaction.keyAlreadySigned countKey
  simp [List.any_eq_true, List.countP_pos_iff]

/-- A frozen transaction with aligned maps has a non-empty signature list. -/
theorem signatures_ne_nil_of_frozen (t : TransferTransaction) (hfr : t.IsFrozen = true)
    (hlen : t.signatures.length = t.transactions.length) : t.signatures ≠ [] := by
  intro hc
  rw [hc] at hlen
  exact (isFrozen_iff t).mp hfr (List.length_eq_zero.mp hlen.symm)

/-- An already-signed key makes the signing step a no-op. -/
theorem signWithCore_already (u : TransferTransaction) (pk : PublicKey)
    (s : TransactionBody → List Byte) (h : u.keyAlreadySigned pk = true) :
    signWithCore u pk s = u := by
  unfold signWithCore
  rw [h]
  simp

/-- Shape of the signing step for a not-yet-signed key on aligned maps. -/
theorem signWithCore_new (u : TransferTransaction) (pk : PublicKey)
    (s : TransactionBody → List Byte)
    (hlen : u.signatures.length = u.transactions.length)
    (h : u.keyAlreadySigned pk = false) :
    (signWithCore u pk s).transactions = u.transactions ∧
    (signWithCore u pk s).signatures =
      List.zipWith (fun m body => m ++ [(pk, s body)]) u.signatures u.transactions := by
  unfold signWithCore
  rw [h]
  simp only [Bool.false_eq_true, if_false]
  refine ⟨trivial, ?_⟩
  show List.zipWith _ u.signatures u.transactions ++ u.signatures.drop u.transactions.length = _
  rw [← hlen, List.drop_length]
  simp

/-- Every map produced by the signing `zipWith` is an old map with one new
entry for the key appended. -/
theorem mem_zipWith_sign {pk : PublicKey} {s : TransactionBody → List Byte} :
    ∀ {l1 : List (List (PublicKey × List Byte))} {l2 : List TransactionBody}
      {m' : List (PublicKey × List Byte)},
      m' ∈ List.zipWith (fun m body => m ++ [(pk, s body)]) l1 l2 →
      ∃ m ∈ l1, ∃ sig, m' = m ++ [(pk, sig)] := by
  intro l1
  induction l1 with
  | nil =>
    intro l2 m' h
    simp at h
  | cons x xs ih =>
    intro l2 m' h
    cases l2 with
    | nil => simp at h
    | cons y ys =>
      simp only [List.zipWith_cons_cons, List.mem_cons] at h
      cases h with
      | inl h => exact ⟨x, List.mem_cons_self x xs, s y, h⟩
      | inr h =>
        obtain ⟨m, hm, sig, hb⟩ := ih h
        exact ⟨m, List.mem_cons_of_mem x hm, sig, hb⟩

/-- Appending one entry for `pk` adds one to its count and nothing to any
other key's count. -/
theorem countKey_append_one (k pk : PublicKey) (m : List (PublicKey × List Byte))
    (sig : List Byte) :
    countKey k (m ++ [(pk, sig)]) = countKey k m + (if pk = k then 1 else 0) := by
  unfold countKey
  rw [List.countP_append]
  by_cases hk : pk = k
  · simp [List.countP_cons, hk]
  · simp [List.countP_cons, hk]

/-- A key with zero entries everywhere has not already signed. -/
theorem keyAlreadySigned_false_of_allCount0 (t : TransferTransaction) (pk : PublicKey)
    (h0 : allCount pk 0 t = true) : t.keyAlreadySigned pk = false := by
  cases hkc : t.keyAlreadySigned pk
  · rfl
  · obtain ⟨m, hm, hpos⟩ := (keyAlreadySigned_iff t pk).mp hkc
    have := (allCount_iff pk 0 t).mp h0 m hm
    omega

/-- C2: signing is idempotent per key and signature maps stay deduplicated —
on a frozen transaction with aligned maps where the key has not signed,
`SignWith` twice with the same public key equals `SignWith` once, the result
holds exactly one entry for that key in each per-node signature map, and no
map ever holds two entries for any one key (at-most-one is preserved for
every key). -/
theorem c2_sign_idempotent_dedup :
    ∀ (pk k : PublicKey) (s s' : TransactionBody → List Byte) (t : TransferTransaction),
      t.IsFrozen = true →
      t.signatures.length = t.transactions.length →
      allCount pk 0 t = true →
      allAtMostOne k t = true →
      (t.SignWith pk s).SignWith pk s' = t.SignWith pk s ∧
      allCount pk 1 (t.SignWith pk s) = true ∧
      allAtMostOne k (t.SignWith pk s) = true := by
  intro pk k s s' t hfr hlen h0 hk
  have hstep : t.SignWith pk s = signWithCore t pk s := by
    unfold TransferTransaction.SignWith
    rw [if_pos hfr]
  have hkas : t.keyAlreadySigned pk = false := keyAlreadySigned_false_of_allCount0 t pk h0
  have hcore := signWithCore_new t pk s hlen hkas
  have hcount1 : ∀ m' ∈ (signWithCore t pk s).signatures, countKey pk m' = 1 := by
    intro m' hm'
    rw [hcore.2] at hm'
    obtain ⟨m, hm, sig, rfl⟩ := mem_zipWith_sign hm'
    rw [countKey_append_one, (allCount_iff pk 0 t).mp h0 m hm]
    simp
  have hcountk : ∀ m' ∈ (signWithCore t pk s).signatures, countKey k m' ≤ 1 := by
    intro m' hm'
    rw [hcore.2] at hm'
    obtain ⟨m, hm, sig, rfl⟩ := mem_zipWith_sign hm'
    rw [countKey_append_one]
    by_cases hpkk : pk = k
    · subst hpkk
      rw [(allCount_iff pk 0 t).mp h0 m hm]
      simp
    · have := (allAtMostOne_iff k t).mp hk m hm
      simpa [hpkk] using this
  have hlen1 : (signWithCore t pk s).signatures.length = t.signatures.length := by
    rw [hcore.2, List.length_zipWith, hlen]
    simp
  have hfr1 : (signWithCore t pk s).IsFrozen = true := by
    rw [isFrozen_iff, hcore.1]
    exact (isFrozen_iff t).mp hfr
  have hne : (signWithCore t pk s).signatures ≠ [] := by
    have hne0 := signatures_ne_nil_of_frozen t hfr hlen
    intro hc
    rw [hc] at hlen1
    exact hne0 (List.length_eq_zero.mp hlen1.symm)
  have hkas1 : (signWithCore t pk s).keyAlreadySigned pk = true := by
    rw [keyAlreadySigned_iff]
    obtain ⟨m', hm'⟩ := List.exists_mem_of_ne_nil _ hne
    refine ⟨m', hm', ?_⟩
    rw [hcount1 m' hm']
    omega
  refine ⟨?_, ?_, ?_⟩
  · rw [hstep]
    have h2 : (signWithCore t pk s).SignWith pk s' = signWithCore (signWithCore t pk s) pk s' := by
      unfold TransferTransaction.SignWith
      rw [if_pos hfr1]
    rw [h2, signWithCore_already _ pk s' hkas1]
  · rw [hstep, allCount_iff]
    exact hcount1
  · rw [hstep, allAtMostOne_iff]
    exact hcountk

/-- C2 witness: the concrete frozen transaction signed twice with the same
key equals it signed once, with exactly one entry in its single map. -/
theorem c2_sign_idempotent_dedup_witness :
    (exFrozen.SignWith exKey exSigner).SignWith exKey exSigner =
      exFrozen.SignWith exKey exSigner ∧
    allCount exKey 1 (exFrozen.SignWith exKey exSigner) = true ∧
    allAtMostOne exKey (exFrozen.SignWith exKey exSigner) = true :=
  c2_sign_idempotent_dedup exKey exKey exSigner exSigner exFrozen (by decide) (by decide)
    (by decide) (by decide)

/-- C6: for a frozen transaction whose payer equals the client's non-zero
operator account, the pre-dispatch phase of `Execute` leaves exactly one
operator-key entry in every per-node signature map — signing when the
operator has not signed, and adding nothing (a strict no-op) when it has. -/
theorem c6_execute_ensures_operator_signature :
    ∀ (t : TransferTransaction) (client : Client) (now : Nat) (op : Operator)
      (tid : TransactionID),
      t.IsFrozen = true →
      t.signatures.length = t.transactions.length →
      client.operator = some op →
      op.accountID.isZero = false →
      t.id = some tid →
      op.accountID.equals tid.accountID = true →
      (allCount op.publicKey 0 t = true ∨ allCount op.publicKey 1 t = true) →
      allCount op.publicKey 1 (t.ExecutePrep client now) = true ∧
      (allCount op.publicKey 1 t = true → t.ExecutePrep client now = t) := by
  intro t client now op tid hfr hlen hop hz hid heqs H
  have hprep : t.ExecutePrep client now = executeSignStep client t := by
    unfold TransferTransaction.ExecutePrep
    rw [if_pos hfr]
  have hacct : client.GetOperatorAccountID = op.accountID := by
    simp [Client.GetOperatorAccountID, hop]
  have hpk : client.GetOperatorPublicKey = op.publicKey := by
    simp [Client.GetOperatorPublicKey, hop]
  have hsg : client.GetOperatorSigner = op.signer := by
    simp [Client.GetOperatorSigner, hop]
  have hpayer : t.payerAccount = tid.accountID := by
    simp [TransferTransaction.payerAccount, hid]
  have hguard : (!client.GetOperatorAccountID.isZero &&
      client.GetOperatorAccountID.equals t.payerAccount) = true := by
    rw [hacct, hpayer, hz, heqs]
    rfl
  have hstep : t.ExecutePrep client now = signWithCore t op.publicKey op.signer := by
    rw [hprep]
    unfold executeSignStep
    rw [if_pos hguard, hpk, hsg]
    unfold TransferTransaction.SignWith
    rw [if_pos hfr]
  have himpl : allCount op.publicKey 1 t = true → t.ExecutePrep client now = t := by
    intro h1
    obtain ⟨m, hm⟩ :=
      List.exists_mem_of_ne_nil _ (signatures_ne_nil_of_frozen t hfr hlen)
    have hkas : t.keyAlreadySigned op.publicKey = true := by
      rw [keyAlreadySigned_iff]
      refine ⟨m, hm, ?_⟩
      rw [(allCount_iff _ 1 t).mp h1 m hm]
      omega
    rw [hstep, signWithCore_already _ _ _ hkas]
  cases H with
  | inl h0 =>
    refine ⟨?_, himpl⟩
    have hkas := keyAlreadySigned_false_of_allCount0 t op.publicKey h0
    have hcore := signWithCore_new t op.publicKey op.signer hlen hkas
    rw [hstep, allCount_iff]
    intro m' hm'
    rw [hcore.2] at hm'
    obtain ⟨m, hm, sig, rfl⟩ := mem_zipWith_sign hm'
    rw [countKey_append_one, (allCount_iff _ 0 t).mp h0 m hm]
    simp
  | inr h1 =>
    refine ⟨?_, himpl⟩
    rw [himpl h1]
    exact h1

/-- The operator used in concrete instances (payer account `exPayer`). -/
def exOperator : Operator := { accountID := exPayer, publicKey := exKey, signer := exSigner }

/-- A client whose operator is `exOperator`. -/
def exClientWithOperator : Client :=
  { operator := some exOperator, maxTransactionFee := 100000000, network := [exNode],
    networkName := "testnet" }

/-- C6 witness: on the concrete frozen transaction whose payer is the
operator, the pre-dispatch phase leaves exactly one operator entry per map. -/
theorem c6_execute_ensures_operator_signature_witness :
    allCount exOperator.publicKey 1 (exFrozen.ExecutePrep exClientWithOperator 0) = true ∧
    (allCount exOperator.publicKey 1 exFrozen = true →
      exFrozen.ExecutePrep exClientWithOperator 0 = exFrozen) :=
  c6_execute_ensures_operator_signature exFrozen exClientWithOperator 0 exOperator exTid
    (by decide) (by decide) rfl (by decide) (by decide) (by decide)
    (Or.inl (by decide))

/-- `hexCharVal` inverts `hexChar` on all sixteen digit values. -/
theorem hexCharVal_hexChar_fin : ∀ n : Fin 16, hexCharVal (hexChar n.val) = some n := by
  decide

/-- `hexCharVal` inverts `hexChar` below 16. -/
theorem hexCharVal_hexChar (n : Nat) (h : n < 16) :
    hexCharVal (hexChar n) = some ⟨n, h⟩ :=
  hexCharVal_hexChar_fin ⟨n, h⟩

/-- Parsing inverts rendering on byte lists: the hex round trip is lossless. -/
theorem hexToBytes_bytesToHex : ∀ bs : List Byte, hexToBytes (bytesToHex bs) = some bs := by
  intro bs
  induction bs with
  | nil => rfl
  | cons b rest ih =>
    have hdiv : b.val / 16 < 16 := by omega
    have hmod : b.val % 16 < 16 := by omega
    have h1 := hexCharVal_hexChar (b.val / 16) hdiv
    have h2 := hexCharVal_hexChar (b.val % 16) hmod
    have h3 : (⟨b.val / 16 * 16 + b.val % 16, by omega⟩ : Byte) = b := by
      apply Fin.ext
      show b.val / 16 * 16 + b.val % 16 = b.val
      omega
    show hexToBytes (hexChar (b.val / 16) :: hexChar (b.val % 16) :: bytesToHex rest) = _
    unfold hexToBytes
    rw [h1, h2, ih]
    simp [h3]

/-- C8: for every 32-byte private key of either supported scheme, exporting to
the DER hex string or the raw hex string and re-parsing with
`PrivateKeyFromString` / `PrivateKeyFromStringEd25519` /
`PrivateKeyFromStringECSDA` reproduces byte-identical key material. -/
theorem c8_private_key_string_roundtrip :
    ∀ k : PrivateKey, k.keyData.length = 32 →
      PrivateKeyFromString k.toStringDer = some k ∧
      (k.scheme = .ed25519 →
        PrivateKeyFromStringEd25519 k.toStringDer = some k ∧
        PrivateKeyFromStringEd25519 k.toStringRaw = some k) ∧
      (k.scheme = .ecdsaSecp256k1 →
        PrivateKeyFromStringECSDA k.toStringDer = some k ∧
        PrivateKeyFromStringECSDA k.toStringRaw = some k) := by
  intro k hlen
  obtain ⟨sc, kd⟩ := k
  simp only at hlen
  cases sc with
  | ed25519 =>
    have hb : PrivateKey.derBytes ⟨.ed25519, kd⟩ = ed25519DerHeader ++ kd := rfl
    have hlen48 : (ed25519DerHeader ++ kd).length = 48 := by
      rw [List.length_append, hlen]
      rfl
    have h16 : ed25519DerHeader.length = 16 := rfl
    have htake : (ed25519DerHeader ++ kd).take 16 = ed25519DerHeader := by
      rw [← h16, List.take_left]
    have hdrop : (ed25519DerHeader ++ kd).drop 16 = kd := by
      rw [← h16, List.drop_left]
    refine ⟨?_, fun _ => ⟨?_, ?_⟩, fun hc => by simp at hc⟩
    · unfold PrivateKeyFromString PrivateKey.toStringDer
      rw [hb, hexToBytes_bytesToHex, Option.some_bind]
      unfold PrivateKeyBytesAuto
      rw [if_pos ⟨hlen48, htake⟩, hdrop]
    · unfold PrivateKeyFromStringEd25519 PrivateKey.toStringDer
      rw [hb, hexToBytes_bytesToHex, Option.some_bind]
      unfold PrivateKeyBytesEd25519
      rw [if_pos ⟨hlen48, htake⟩, hdrop]
    · unfold PrivateKeyFromStringEd25519 PrivateKey.toStringRaw
      show (hexToBytes (bytesToHex kd)).bind PrivateKeyBytesEd25519 = _
      rw [hexToBytes_bytesToHex, Option.some_bind]
      unfold PrivateKeyBytesEd25519
      rw [if_neg (fun hc => by rw [hlen] at hc; exact absurd hc.1 (by decide)), if_pos hlen]
  | ecdsaSecp256k1 =>
    have hb : PrivateKey.derBytes ⟨.ecdsaSecp256k1, kd⟩ = ecdsaDerHeader ++ kd := rfl
    have hlen50 : (ecdsaDerHeader ++ kd).length = 50 := by
      rw [List.length_append, hlen]
      rfl
    have h18 : ecdsaDerHeader.length = 18 := rfl
    have htake : (ecdsaDerHeader ++ kd).take 18 = ecdsaDerHeader := by
      rw [← h18, List.take_left]
    have hdrop : (ecdsaDerHeader ++ kd).drop 18 = kd := by
      rw [← h18, List.drop_left]
    refine ⟨?_, fun hc => by simp at hc, fun _ => ⟨?_, ?_⟩⟩
    · unfold PrivateKeyFromString PrivateKey.toStringDer
      rw [hb, hexToBytes_bytesToHex, Option.some_bind]
      unfold PrivateKeyBytesAuto
      rw [if_neg (fun hc => by rw [hlen50] at hc; exact absurd hc.1 (by decide)),
        if_pos ⟨hlen50, htake⟩, hdrop]
    · unfold PrivateKeyFromStringECSDA PrivateKey.toStringDer
      rw [hb, hexToBytes_bytesToHex, Option.some_bind]
      unfold PrivateKeyBytesECDSA
      rw [if_pos ⟨hlen50, htake⟩, hdrop]
    · unfold PrivateKeyFromStringECSDA PrivateKey.toStringRaw
      show (hexToBytes (bytesToHex kd)).bind PrivateKeyBytesECDSA = _
      rw [hexToBytes_bytesToHex, Option.some_bind]
      unfold PrivateKeyBytesECDSA
      rw [if_neg (fun hc => by rw [hlen] at hc; exact absurd hc.1 (by decide)), if_pos hlen]

/-- A concrete 32-byte Ed25519 key. -/
def exEdKey : PrivateKey := { scheme := .ed25519, keyData := List.replicate 32 (219 : Byte) }

/-- A concrete 32-byte ECDSA-secp256k1 key. -/
def exEcdsaKey : PrivateKey :=
  { scheme := .ecdsaSecp256k1, keyData := List.replicate 32 (7 : Byte) }

/-- C8 witness: the round trip at concrete keys of both schemes, through the
DER form and the raw form. -/
theorem c8_private_key_string_roundtrip_witness :
    PrivateKeyFromString exEdKey.toStringDer = some exEdKey ∧
    PrivateKeyFromStringEd25519 exEdKey.toStringRaw = some exEdKey ∧
    PrivateKeyFromString exEcdsaKey.toStringDer = some exEcdsaKey ∧
    PrivateKeyFromStringECSDA exEcdsaKey.toStringRaw = some exEcdsaKey :=
  ⟨(c8_private_key_string_roundtrip exEdKey (by decide)).1,
   ((c8_private_key_string_roundtrip exEdKey (by decide)).2.1 rfl).2,
   (c8_private_key_string_roundtrip exEcdsaKey (by decide)).1,
   ((c8_private_key_string_roundtrip exEcdsaKey (by decide)).2.2 rfl).2⟩

/-- Embeds a caller performing a sequence of `AddTokenTransfer` calls for one
token (in order). -/
def TransferTransaction.AddTokenTransfers :
    TransferTransaction → TokenID → List (AccountID × Int) →
      Except HederaError TransferTransaction
  | t, _, [] => .ok t
  | t, tok, (a, v) :: rest =>
    match t.AddTokenTransfer tok a v with
    | .error e => .error e
    | .ok t' => t'.AddTokenTransfers tok rest

/-- Whether a fallible transaction operation succeeded. -/
def exceptIsOk : Except HederaError TransferTransaction → Bool
  | .ok _ => true
  | .error _ => false

/-- The resulting transaction of a fallible operation, with a fallback. -/
def exceptGetD (d : TransferTransaction) :
    Except HederaError TransferTransaction → TransferTransaction
  | .ok t => t
  | .error _ => d

/-- The tokens of the body's token transfer lists, in order. -/
def tokensOf (t : TransferTransaction) : List TokenID :=
  t.pb.tokenTransfers.map (fun g => g.token)

/-- Well-formedness of the `tokenIndexes` map against the body: every index
entry points at the transfer list holding its token, every transfer list's
token has an index entry, and neither side repeats a token.  This is the
invariant `AddTokenTransfer` maintains. -/
def TransferTransaction.indexesWellFormed (t : TransferTransaction) : Bool :=
  t.tokenIndexes.all (fun p =>
      decide ((t.pb.tokenTransfers[p.2]?).map (fun g => g.token) = some p.1)) &&
    t.pb.tokenTransfers.all (fun g => decide (lookupIndex g.token t.tokenIndexes ≠ none)) &&
    decide (tokensOf t).Nodup &&
    decide (t.tokenIndexes.map Prod.fst).Nodup

/-- Propositional reading of `indexesWellFormed`. -/
theorem indexesWellFormed_iff (t : TransferTransaction) :
    t.indexesWellFormed = true ↔
      ((∀ p ∈ t.tokenIndexes,
          (t.pb.tokenTransfers[p.2]?).map (fun g => g.token) = some p.1) ∧
        (∀ g ∈ t.pb.tokenTransfers, lookupIndex g.token t.tokenIndexes ≠ none) ∧
        (tokensOf t).Nodup ∧
        (t.tokenIndexes.map Prod.fst).Nodup) := by
  unfold TransferTransaction.indexesWellFormed
  simp [List.all_eq_true, and_assoc]

/-- First-match lookup misses exactly when no entry has the key. -/
theorem lookupIndex_eq_none_iff (tok : TokenID) :
    ∀ l : List (TokenID × Nat), lookupIndex tok l = none ↔ ∀ p ∈ l, p.1 ≠ tok := by
  intro l
  induction l with
  | nil => simp [lookupIndex]
  | cons p ps ih =>
    unfold lookupIndex
    by_cases hp : p.1 = tok
    · simp [hp]
    · simp [hp, ih]

/-- First-match lookup over an append: the left map wins. -/
theorem lookupIndex_append (tok : TokenID) :
    ∀ l1 l2 : List (TokenID × Nat),
      lookupIndex tok (l1 ++ l2) =
        match lookupIndex tok l1 with
        | some i => some i
        | none => lookupIndex tok l2 := by
  intro l1 l2
  induction l1 with
  | nil => simp [lookupIndex]
  | cons p ps ih =>
    simp only [List.cons_append, lookupIndex]
    by_cases hp : p.1 = tok
    · simp [hp]
    · simp [hp, ih]

/-- A successful first-match lookup exhibits its entry. -/
theorem lookupIndex_mem (tok : TokenID) (i : Nat) :
    ∀ l : List (TokenID × Nat), lookupIndex tok l = some i → (tok, i) ∈ l := by
  intro l
  induction l with
  | nil => intro h; simp [lookupIndex] at h
  | cons p ps ih =>
    intro h
    unfold lookupIndex at h
    by_cases hp : p.1 = tok
    · rw [if_pos hp] at h
      cases Option.some.inj h
      have hpe : (tok, p.2) = p := by rw [← hp]
      rw [hpe]
      exact List.mem_cons_self p ps
    · rw [if_neg hp] at h
      exact List.mem_cons_of_mem p (ih h)

/-- `modifyIdx` keeps the length. -/
theorem length_modifyIdx {α : Type} (f : α → α) :
    ∀ (l : List α) (i : Nat), (modifyIdx l i f).length = l.length := by
  intro l
  induction l with
  | nil => intro i; rfl
  | cons x xs ih =>
    intro i
    cases i with
    | zero => rfl
    | succ j => simpa [modifyIdx] using ih j

/-- `modifyIdx` applies the function at its index. -/
theorem getElem?_modifyIdx_eq {α : Type} (f : α → α) :
    ∀ (l : List α) (i : Nat), (modifyIdx l i f)[i]? = (l[i]?).map f := by
  intro l
  induction l with
  | nil => intro i; cases i <;> simp [modifyIdx]
  | cons x xs ih =>
    intro i
    cases i with
    | zero => simp [modifyIdx]
    | succ j => simpa [modifyIdx] using ih j

/-- `modifyIdx` leaves other indices untouched. -/
theorem getElem?_modifyIdx_ne {α : Type} (f : α → α) :
    ∀ (l : List α) (i j : Nat), i ≠ j → (modifyIdx l i f)[j]? = l[j]? := by
  intro l
  induction l with
  | nil => intro i j _; cases i <;> simp [modifyIdx]
  | cons x xs ih =>
    intro i j hne
    cases i with
    | zero =>
      cases j with
      | zero => exact absurd rfl hne
      | succ j2 => simp [modifyIdx]
    | succ i2 =>
      cases j with
      | zero => simp [modifyIdx]
      | succ j2 => simpa [modifyIdx] using ih i2 j2 (by omega)

/-- A token-preserving `modifyIdx` does not change the token sequence. -/
theorem map_token_modifyIdx (f : TokenTransferList → TokenTransferList)
    (hf : ∀ g, (f g).token = g.token) :
    ∀ (l : List TokenTransferList) (i : Nat),
      (modifyIdx l i f).map (fun g => g.token) = l.map (fun g => g.token) := by
  intro l
  induction l with
  | nil => intro i; rfl
  | cons x xs ih =>
    intro i
    cases i with
    | zero => simp [modifyIdx, hf]
    | succ j => simpa [modifyIdx] using ih j

/-- With distinct tokens, the lists carrying a present token filter down to
exactly the one list at its index. -/
theorem filter_token_eq_single (tok : TokenID) :
    ∀ (l : List TokenTransferList) (i : Nat) (gi : TokenTransferList),
      (l.map (fun g => g.token)).Nodup → l[i]? = some gi → gi.token = tok →
      l.filter (fun g => decide (g.token = tok)) = [gi] := by
  intro l
  induction l with
  | nil =>
    intro i gi _ h _
    simp at h
  | cons x xs ih =>
    intro i gi hnd hget htok
    simp only [List.map_cons, List.nodup_cons] at hnd
    cases i with
    | zero =>
      simp only [List.getElem?_cons_zero] at hget
      cases Option.some.inj hget
      rw [List.filter_cons_of_pos (by simp [htok])]
      have hrest : xs.filter (fun g => decide (g.token = tok)) = [] := by
        rw [List.filter_eq_nil_iff]
        intro g hg
        simp only [decide_eq_true_eq]
        intro hc
        exact hnd.1 (by rw [htok, ← hc]; exact List.mem_map_of_mem _ hg)
      rw [hrest]
    | succ j =>
      simp only [List.getElem?_cons_succ] at hget
      have hx : ¬(x.token = tok) := by
        intro hc
        have hgm : gi ∈ xs := List.getElem?_mem hget
        exact hnd.1 (by rw [hc, ← htok]; exact List.mem_map_of_mem _ hgm)
      rw [List.filter_cons_of_neg (by simp [hx])]
      exact ih j gi hnd.2 hget htok

/-- With no list carrying the token, the filter is empty. -/
theorem filter_token_eq_nil (tok : TokenID) (l : List TokenTransferList)
    (h : ∀ g ∈ l, g.token ≠ tok) :
    l.filter (fun g => decide (g.token = tok)) = [] := by
  rw [List.filter_eq_nil_iff]
  intro g hg
  simpa using h g hg

/-- The transfer-list update `AddTokenTransfer` applies to an existing
`TokenTransferList`. -/
def appendTransfer (a : AccountID) (v : Int) (ttl : TokenTransferList) : TokenTransferList :=
  { ttl with transfers := ttl.transfers ++ [{ accountID := a, amount := v }] }

/-- Result of `AddTokenTransfer` when the token already has an index. -/
def addSeenResult (t : TransferTransaction) (a : AccountID) (v : Int) (i : Nat) :
    TransferTransaction :=
  { t with pb := { t.pb with tokenTransfers := modifyIdx t.pb.tokenTransfers i (appendTransfer a v) } }

/-- Result of `AddTokenTransfer` when the token is new. -/
def addUnseenResult (t : TransferTransaction) (tok : TokenID) (a : AccountID) (v : Int) :
    TransferTransaction :=
  { t with
    tokenIndexes := t.tokenIndexes ++ [(tok, t.pb.tokenTransfers.length)]
    pb := { t.pb with tokenTransfers := t.pb.tokenTransfers ++ [{ token := tok, transfers := [{ accountID := a, amount := v }] }] } }

/-- Shape of `AddTokenTransfer` for an already-seen token. -/
theorem addTokenTransfer_seen (t : TransferTransaction) (tok : TokenID) (a : AccountID)
    (v : Int) (i : Nat) (hfr : t.IsFrozen = false)
    (hidx : lookupIndex tok t.tokenIndexes = some i) :
    t.AddTokenTransfer tok a v = .ok (addSeenResult t a v i) := by
  unfold TransferTransaction.AddTokenTransfer TransferTransaction.requireNotFrozen
  rw [hfr]
  simp only [Bool.false_eq_true, if_false]
  rw [hidx]
  rfl

/-- Shape of `AddTokenTransfer` for a token not yet seen. -/
theorem addTokenTransfer_unseen (t : TransferTransaction) (tok : TokenID) (a : AccountID)
    (v : Int) (hfr : t.IsFrozen = false)
    (hidx : lookupIndex tok t.tokenIndexes = none) :
    t.AddTokenTransfer tok a v = .ok (addUnseenResult t tok a v) := by
  unfold TransferTransaction.AddTokenTransfer TransferTransaction.requireNotFrozen
  rw [hfr]
  simp only [Bool.false_eq_true, if_false]
  rw [hidx]
  rfl

/-- A token-preserving `modifyIdx` changes no token seen through any index. -/
theorem map_token_getElem?_modifyIdx (l : List TokenTransferList) (i j : Nat)
    (f : TokenTransferList → TokenTransferList) (hf : ∀ g, (f g).token = g.token) :
    ((modifyIdx l i f)[j]?).map (fun g => g.token) = (l[j]?).map (fun g => g.token) := by
  by_cases hj : i = j
  · subst hj
    rw [getElem?_modifyIdx_eq]
    cases l[i]? <;> simp [hf]
  · rw [getElem?_modifyIdx_ne _ _ _ _ hj]

/-- Full effect of `AddTokenTransfer`'s update for an already-seen token:
well-formedness and the filter count are preserved, and the token's transfer
entries grow by exactly the new entry. -/
theorem addSeenResult_props (t : TransferTransaction) (tok : TokenID) (a : AccountID)
    (v : Int) (i : Nat) (hwf : t.indexesWellFormed = true)
    (hidx : lookupIndex tok t.tokenIndexes = some i) :
    (addSeenResult t a v i).indexesWellFormed = true ∧
    (addSeenResult t a v i).GetTokenTransfers tok =
      t.GetTokenTransfers tok ++ [{ accountID := a, amount := v }] ∧
    ((addSeenResult t a v i).pb.tokenTransfers.filter
      (fun g => decide (g.token = tok))).length =
      (t.pb.tokenTransfers.filter (fun g => decide (g.token = tok))).length := by
  obtain ⟨w1, w2, w3, w4⟩ := (indexesWellFormed_iff t).mp hwf
  have hmem : (tok, i) ∈ t.tokenIndexes := lookupIndex_mem tok i _ hidx
  obtain ⟨gi, hgi, htok⟩ := Option.map_eq_some'.mp (w1 (tok, i) hmem)
  have htokpres : ∀ g, (appendTransfer a v g).token = g.token := fun g => rfl
  have htoks : tokensOf (addSeenResult t a v i) = tokensOf t := by
    show (modifyIdx t.pb.tokenTransfers i (appendTransfer a v)).map (fun g => g.token) = _
    exact map_token_modifyIdx _ htokpres _ i
  have hone := filter_token_eq_single tok t.pb.tokenTransfers i gi w3 hgi htok
  have hone' : (modifyIdx t.pb.tokenTransfers i (appendTransfer a v)).filter
      (fun g => decide (g.token = tok)) = [appendTransfer a v gi] := by
    refine filter_token_eq_single tok _ i _ ?_ ?_ (by rw [htokpres gi, htok])
    · show ((modifyIdx t.pb.tokenTransfers i (appendTransfer a v)).map
        (fun g => g.token)).Nodup
      rw [map_token_modifyIdx _ htokpres]
      exact w3
    · rw [getElem?_modifyIdx_eq, hgi]
      rfl
  refine ⟨?_, ?_, ?_⟩
  · rw [indexesWellFormed_iff]
    refine ⟨?_, ?_, ?_, w4⟩
    · intro p hp
      show ((modifyIdx t.pb.tokenTransfers i (appendTransfer a v))[p.2]?).map
        (fun g => g.token) = some p.1
      rw [map_token_getElem?_modifyIdx _ _ _ _ htokpres]
      exact w1 p hp
    · intro g' hg'
      have hgm : g'.token ∈ tokensOf t := by
        rw [← htoks]
        exact List.mem_map_of_mem _ hg'
      obtain ⟨g, hg, htokeq⟩ := List.mem_map.mp hgm
      show lookupIndex g'.token t.tokenIndexes ≠ none
      rw [← htokeq]
      exact w2 g hg
    · rw [htoks]
      exact w3
  · unfold TransferTransaction.GetTokenTransfers
    show (((modifyIdx t.pb.tokenTransfers i (appendTransfer a v)).filter
      (fun g => decide (g.token = tok))).map (fun g => g.transfers)).flatten = _
    rw [hone', hone]
    simp [appendTransfer]
  · show ((modifyIdx t.pb.tokenTransfers i (appendTransfer a v)).filter
      (fun g => decide (g.token = tok))).length = _
    rw [hone', hone]
    rfl

/-- A present index is in bounds. -/
theorem lt_length_of_getElem?_some {α : Type} {l : List α} {i : Nat} {a : α}
    (h : l[i]? = some a) : i < l.length := by
  by_contra hc
  push_neg at hc
  rw [List.getElem?_eq_none hc] at h
  simp at h

/-- Full effect of `AddTokenTransfer`'s update for a new token: the invariant
still holds, the new token gains an index pointing at the appended list, and
its transfer entries are exactly the one new entry. -/
theorem addUnseenResult_props (t : TransferTransaction) (tok : TokenID) (a : AccountID)
    (v : Int) (hwf : t.indexesWellFormed = true)
    (hidx : lookupIndex tok t.tokenIndexes = none) :
    (addUnseenResult t tok a v).indexesWellFormed = true ∧
    lookupIndex tok (addUnseenResult t tok a v).tokenIndexes =
      some t.pb.tokenTransfers.length ∧
    (addUnseenResult t tok a v).GetTokenTransfers tok = [{ accountID := a, amount := v }] ∧
    ((addUnseenResult t tok a v).pb.tokenTransfers.filter
      (fun g => decide (g.token = tok))).length = 1 := by
  obtain ⟨w1, w2, w3, w4⟩ := (indexesWellFormed_iff t).mp hwf
  have hnotin : ∀ g ∈ t.pb.tokenTransfers, g.token ≠ tok := by
    intro g hg hc
    exact (w2 g hg) (by rw [hc]; exact hidx)
  have hlookup : lookupIndex tok (t.tokenIndexes ++ [(tok, t.pb.tokenTransfers.length)]) =
      some t.pb.tokenTransfers.length := by
    rw [lookupIndex_append, hidx]
    simp [lookupIndex]
  have hfilter : (t.pb.tokenTransfers ++
      [({ token := tok, transfers := [{ accountID := a, amount := v }] } :
        TokenTransferList)]).filter (fun g => decide (g.token = tok)) =
      [{ token := tok, transfers := [{ accountID := a, amount := v }] }] := by
    rw [List.filter_append, filter_token_eq_nil tok _ hnotin]
    simp
  have hnm : tok ∉ tokensOf t := by
    intro hc
    obtain ⟨g, hg, he⟩ := List.mem_map.mp hc
    exact hnotin g hg he
  have hnmi : tok ∉ t.tokenIndexes.map Prod.fst := by
    intro hc
    obtain ⟨p, hp, he⟩ := List.mem_map.mp hc
    exact ((lookupIndex_eq_none_iff tok t.tokenIndexes).mp hidx p hp) he
  refine ⟨?_, hlookup, ?_, ?_⟩
  · rw [indexesWellFormed_iff]
    refine ⟨?_, ?_, ?_, ?_⟩
    · intro p hp
      rcases List.mem_append.mp hp with hold | hnew
      · have h1 := w1 p hold
        obtain ⟨g, hgp, _⟩ := Option.map_eq_some'.mp h1
        show ((t.pb.tokenTransfers ++ _)[p.2]?).map (fun g => g.token) = some p.1
        rw [List.getElem?_append_left (lt_length_of_getElem?_some hgp)]
        exact h1
      · have hp2 : p = (tok, t.pb.tokenTransfers.length) := by simpa using hnew
        subst hp2
        show ((t.pb.tokenTransfers ++ _)[t.pb.tokenTransfers.length]?).map
          (fun g => g.token) = some tok
        rw [List.getElem?_concat_length]
        rfl
    · intro g hg
      rcases List.mem_append.mp hg with hold | hnew
      · have h2 := w2 g hold
        show lookupIndex g.token (t.tokenIndexes ++ _) ≠ none
        rw [lookupIndex_append]
        cases hl : lookupIndex g.token t.tokenIndexes with
        | none => exact absurd hl h2
        | some j => simp
      · have hg2 : g = ({ token := tok, transfers := [{ accountID := a, amount := v }] } :
          TokenTransferList) := by simpa using hnew
        subst hg2
        show lookupIndex tok (t.tokenIndexes ++ _) ≠ none
        rw [hlookup]
        simp
    · show ((t.pb.tokenTransfers ++ _).map (fun g => g.token)).Nodup
      rw [List.map_append]
      simp [List.nodup_append]
      exact ⟨w3, by simpa [tokensOf] using hnm⟩
    · show ((t.tokenIndexes ++ _).map Prod.fst).Nodup
      rw [List.map_append]
      simp [List.nodup_append]
      exact ⟨w4, by simpa using hnmi⟩
  · unfold TransferTransaction.GetTokenTransfers
    show (((t.pb.tokenTransfers ++ _).filter (fun g => decide (g.token = tok))).map
      (fun g => g.transfers)).flatten = _
    rw [hfilter]
    rfl
  · show ((t.pb.tokenTransfers ++ _).filter (fun g => decide (g.token = tok))).length = 1
    rw [hfilter]
    rfl

/-- Iterating `AddTokenTransfer` for an already-indexed token appends each
transfer to that token's single list and preserves the invariant. -/
theorem addTokenTransfers_seen :
    ∀ (pairs : List (AccountID × Int)) (t : TransferTransaction) (tok : TokenID) (i : Nat),
      t.indexesWellFormed = true → t.IsFrozen = false →
      lookupIndex tok t.tokenIndexes = some i →
      ∃ t', t.AddTokenTransfers tok pairs = .ok t' ∧
        t'.indexesWellFormed = true ∧
        t'.GetTokenTransfers tok = t.GetTokenTransfers tok ++
          pairs.map (fun p => { accountID := p.1, amount := p.2 }) ∧
        (t'.pb.tokenTransfers.filter (fun g => decide (g.token = tok))).length =
          (t.pb.tokenTransfers.filter (fun g => decide (g.token = tok))).length := by
  intro pairs
  induction pairs with
  | nil =>
    intro t tok i hwf hfr hidx
    exact ⟨t, rfl, hwf, by simp, rfl⟩
  | cons pr rest ih =>
    intro t tok i hwf hfr hidx
    obtain ⟨a, v⟩ := pr
    have hshape := addTokenTransfer_seen t tok a v i hfr hidx
    obtain ⟨hwf1, hget1, hcnt1⟩ := addSeenResult_props t tok a v i hwf hidx
    have hfr1 : (addSeenResult t a v i).IsFrozen = false := hfr
    have hidx1 : lookupIndex tok (addSeenResult t a v i).tokenIndexes = some i := hidx
    obtain ⟨t', hrun, hwf', hget', hcnt'⟩ := ih (addSeenResult t a v i) tok i hwf1 hfr1 hidx1
    refine ⟨t', ?_, hwf', ?_, ?_⟩
    · show t.AddTokenTransfers tok ((a, v) :: rest) = .ok t'
      unfold TransferTransaction.AddTokenTransfers
      rw [hshape]
      exact hrun
    · rw [hget', hget1]
      simp
    · rw [hcnt', hcnt1]

/-- C10: `AddTokenTransfer` keeps each token in at most one
`TokenTransferList` — starting from a well-formed unfrozen transaction that
has not seen the token, any sequence of `n` `AddTokenTransfer` calls for that
token succeeds, `GetTokenTransfers` then returns exactly those `n` transfer
entries, they are grouped under a single `TokenTransferList` for the token
(none when `n = 0`), and the index invariant is preserved. -/
theorem c10_token_transfers_grouped :
    ∀ (tok : TokenID) (pairs : List (AccountID × Int)) (t : TransferTransaction),
      t.indexesWellFormed = true → t.IsFrozen = false →
      lookupIndex tok t.tokenIndexes = none →
      exceptIsOk (t.AddTokenTransfers tok pairs) = true ∧
      (exceptGetD t (t.AddTokenTransfers tok pairs)).GetTokenTransfers tok =
        pairs.map (fun p => { accountID := p.1, amount := p.2 }) ∧
      ((exceptGetD t (t.AddTokenTransfers tok pairs)).pb.tokenTransfers.filter
        (fun g => decide (g.token = tok))).length = (if pairs.isEmpty then 0 else 1) ∧
      (exceptGetD t (t.AddTokenTransfers tok pairs)).indexesWellFormed = true := by
  intro tok pairs t hwf hfr hidx
  obtain ⟨w1, w2, w3, w4⟩ := (indexesWellFormed_iff t).mp hwf
  have hnotin : ∀ g ∈ t.pb.tokenTransfers, g.token ≠ tok := by
    intro g hg hc
    exact (w2 g hg) (by rw [hc]; exact hidx)
  cases pairs with
  | nil =>
    refine ⟨rfl, ?_, ?_, hwf⟩
    · show t.GetTokenTransfers tok = []
      unfold TransferTransaction.GetTokenTransfers
      rw [filter_token_eq_nil tok _ hnotin]
      rfl
    · show (t.pb.tokenTransfers.filter (fun g => decide (g.token = tok))).length = _
      rw [filter_token_eq_nil tok _ hnotin]
      rfl
  | cons pr rest =>
    obtain ⟨a, v⟩ := pr
    have hshape := addTokenTransfer_unseen t tok a v hfr hidx
    obtain ⟨hwf1, hidx1, hget1, hcnt1⟩ := addUnseenResult_props t tok a v hwf hidx
    have hfr1 : (addUnseenResult t tok a v).IsFrozen = false := hfr
    obtain ⟨t', hrun, hwf', hget', hcnt'⟩ :=
      addTokenTransfers_seen rest (addUnseenResult t tok a v) tok _ hwf1 hfr1 hidx1
    have hfull : t.AddTokenTransfers tok ((a, v) :: rest) = .ok t' := by
      unfold TransferTransaction.AddTokenTransfers
      rw [hshape]
      exact hrun
    rw [hfull]
    refine ⟨rfl, ?_, ?_, hwf'⟩
    · show t'.GetTokenTransfers tok = _
      rw [hget', hget1]
      simp
    · show (t'.pb.tokenTransfers.filter (fun g => decide (g.token = tok))).length = _
      rw [hcnt', hcnt1]
      rfl

/-- The token used in concrete instances. -/
def exToken : TokenID := { shard := 0, realm := 0, token := 9 }

/-- A concrete three-call transfer sequence for `exToken`. -/
def exPairs : List (AccountID × Int) := [(exPayer, 5), (exNode, -5), (exPayer, 7)]

/-- C10 witness: three `AddTokenTransfer` calls for one token on a fresh
transaction leave exactly three entries grouped under one single list. -/
theorem c10_token_transfers_grouped_witness :
    exceptIsOk (NewTransferTransaction.AddTokenTransfers exToken exPairs) = true ∧
    (exceptGetD NewTransferTransaction
        (NewTransferTransaction.AddTokenTransfers exToken exPairs)).GetTokenTransfers exToken =
      exPairs.map (fun p => { accountID := p.1, amount := p.2 }) ∧
    ((exceptGetD NewTransferTransaction
        (NewTransferTransaction.AddTokenTransfers exToken exPairs)).pb.tokenTransfers.filter
      (fun g => decide (g.token = exToken))).length = (if exPairs.isEmpty then 0 else 1) ∧
    (exceptGetD NewTransferTransaction
        (NewTransferTransaction.AddTokenTransfers exToken exPairs)).indexesWellFormed = true :=
  c10_token_transfers_grouped exToken exPairs NewTransferTransaction (by decide) (by decide)
    (by decide)
